import Mathlib

/-!
Verification development for the lightloggo logging core (Go).

The development shallowly embeds, in Lean, the parts of the repository the
claims are about:

1. the structured value serializer of the JSON formatter
   (src/unnamed/part_000 and src/loggo/core/formatter/json.go), together with
   the cycle guard markAndCheck of src/loggo/core/formatter/help.go;
2. the legacy JSON formatter variant at the top of
   src/loggo/core/formatter/json.go (its Format iterates the field map in map
   order, lines 64 to 69 of the file);
3. the asynchronous route pipeline of src/loggo/core/router.go,
   src/loggo/core/logger.go and the two RouteProcessor variants of
   src/loggo/core/style.go (blocking Enqueue and non-blocking Enqueue);
4. the rotating file sink of src/unnamed/part_007 and
   src/core/writer/file.go (FileWriter: rotation predicates, rotate,
   cleanupBackups).

Go maps are embedded as association lists: the list order models the
(arbitrary) iteration order of the Go map.  Reference values (map[string]any,
[]any) live in an explicit heap of numbered cells, so that cyclic and shared
(diamond) values are expressible; the visited set of markAndCheck becomes the
list of heap addresses on the current traversal path, exactly as the Go code
maintains it (mark on entry, release on exit).  Strings are Lean strings;
characters are compared as Unicode code points, which agrees with Go's
byte-lexicographic ordering of UTF-8 strings.
-/

namespace Loggo

/-! ### String helpers -/

/-- Character escaping of strconv.Quote as the formatter hits it: quote,
backslash and the common control characters are escaped; printable characters
stay themselves (the model's value domain stays in printable text). -/
def quoteChar (c : Char) : String :=
  if c = '"' then "\\\""
  else if c = '\\' then "\\\\"
  else if c = '\n' then "\\n"
  else if c = '\r' then "\\r"
  else if c = '\t' then "\\t"
  else String.singleton c

/-- strconv.Quote: the escaped text between double quotes. -/
def quoteStr (s : String) : String :=
  "\"" ++ String.join (s.data.map quoteChar) ++ "\""

/-- strings.ReplaceAll(s, CRLF, LF) written on the character list. -/
def crlfToLf : List Char → List Char
  | [] => []
  | '\r' :: '\n' :: t => '\n' :: crlfToLf t
  | c :: t => c :: crlfToLf t

/-- strings.ReplaceAll(s, LF, LF plus the continuation mark) written on the
character list. -/
def insertMark : List Char → List Char
  | [] => []
  | '\n' :: t => '\n' :: '│' :: ' ' :: insertMark t
  | c :: t => c :: insertMark t

/-- addMultilinePrefix of src/loggo/core/formatter/help.go: unchanged when the
string has no newline (then it has no CRLF either, so the second conjunct of
the Go guard is redundant); otherwise CRLF is normalized to LF and every LF
gets the continuation mark after it. -/
def addMultilineMark (s : String) : String :=
  if ¬ s.data.contains '\n' then s
  else String.mk (insertMark (crlfToLf s.data))

/-- writeJSONString of the JSON formatter: multiline mark, then strconv.Quote. -/
def writeJSONString (s : String) : String :=
  quoteStr (addMultilineMark s)

/-- escapeString of the legacy JSON formatter: backslash and quote escaped
(ReplaceAll applied character by character). -/
def escChar (c : Char) : String :=
  if c = '\\' then "\\\\" else if c = '"' then "\\\"" else String.singleton c

/-- escapeString of the legacy JSON formatter. -/
def escapeString (s : String) : String :=
  String.join (s.data.map escChar)

/-- strings.HasPrefix: the first string is a prefix of the second. -/
def strStarts (p s : String) : Bool :=
  List.isPrefixOf p.data s.data

/-- Lexicographic comparison of character lists by code point, the order Go
string comparison induces (UTF-8 byte order equals code point order). -/
def charsLe : List Char → List Char → Bool
  | [], _ => true
  | _ :: _, [] => false
  | a :: t, b :: u =>
    if a < b then true
    else if b < a then false
    else charsLe t u

/-- Go string comparison a less or equal b, character-wise. -/
def strLe (a b : String) : Bool :=
  charsLe a.data b.data

/-- Insert into a sorted list of strings, keeping the order. -/
def sortInsert (x : String) : List String → List String
  | [] => [x]
  | y :: t => if strLe x y then x :: y :: t else y :: sortInsert x t

/-- sort.Strings: lexicographically sorted copy of the list (insertion sort;
only the sortedness and the multiset matter to the callers). -/
def sortStrs : List String → List String
  | [] => []
  | x :: t => sortInsert x (sortStrs t)

/-- Insertion into a list of keyed pairs sorted by key. -/
def sortPairsInsert (x : String × α) : List (String × α) → List (String × α)
  | [] => [x]
  | y :: t => if strLe x.1 y.1 then x :: y :: t else y :: sortPairsInsert x t

/-- sort.Slice over (key, payload) pairs comparing keys, as the struct
renderers use it. -/
def sortPairs : List (String × α) → List (String × α)
  | [] => []
  | x :: t => sortPairsInsert x (sortPairs t)

/-! ### Log levels and records -/

/-- LogLevel of src/loggo/core/record.go. -/
inductive LogLevel where
  | trace | debug | info | warning | errlvl | exception
  deriving DecidableEq, Repr

/-- Numeric values of the LogLevel constants (iota * 10). -/
def LogLevel.num : LogLevel → Nat
  | .trace => 0
  | .debug => 10
  | .info => 20
  | .warning => 30
  | .errlvl => 40
  | .exception => 50

/-- LogLevel.String(). -/
def LogLevel.str : LogLevel → String
  | .trace => "TRACE"
  | .debug => "DEBUG"
  | .info => "INFO"
  | .warning => "WARNING"
  | .errlvl => "ERROR"
  | .exception => "EXCEPTION"

/-- Rendering of a Go float64 by strconv.FormatFloat: NaN and the two
infinities are special tokens, a finite float is carried by its decimal
rendering. -/
inductive FloatV where
  | nan | inf | ninf | fin (repr : String)
  deriving DecidableEq, Repr

/-- Dynamic field value (the any-typed tree), with map[string]any, []any and
pointers as references into an explicit heap so cycles and sharing are
expressible.  The constructors follow the dispatch arms of writeJSON in
src/unnamed/part_000: duration, nil, string, bool, signed, unsigned, float,
time.Time, error, fmt.Stringer, map[string]any, []any, and the values the
default arm hands to writeByReflect: a pointer (none is a nil pointer, whose
reflect.Pointer is zero and which markAndCheck therefore does not track), a
struct reached through an interface value (never addressable, so
markAndCheck's CanAddr guard yields no pointer and the struct itself is not
tracked; a cycle through a struct necessarily passes through a pointer,
which is tracked), a byte slice carrying its slice identity, and an
unsupported kind (chan, func), carrying the kind name the JSON formatter
prints and the fmt.Sprint rendering the text formatter prints.  A struct
field is (name, json tag if set, exported, value), as reflection shows it. -/
inductive Val where
  | vNull
  | vBool (b : Bool)
  | vInt (n : Int)
  | vUInt (n : Nat)
  | vFloat (f : FloatV)
  | vStr (s : String)
  | vDur (s : String)
  | vTime (s : String)
  | vErr (s : String)
  | vStringer (s : String)
  | vMap (a : Nat)
  | vSlice (a : Nat)
  | vPtr (a : Option Nat)
  | vStruct (fs : List (String × Option String × Bool × Val))
  | vBytes (a : Nat) (bs : List Nat)
  | vUnsupported (kind srepr : String)

/-- A heap cell: the contents of a map[string]any (association list in map
iteration order), of an []any, or the pointee of a non-nil pointer. -/
inductive HObj where
  | mObj (entries : List (String × Val))
  | sObj (elems : List Val)
  | pObj (v : Val)

/-- The heap: numbered cells. An address models the pointer identity that
markAndCheck tracks. -/
abbrev Heap := List (Nat × HObj)

/-- Dereference an address. -/
def heapFind : Heap → Nat → Option HObj
  | [], _ => none
  | (b, o) :: t, a => if a = b then some o else heapFind t a

/-- Go map indexing m[k] on the association list. -/
def lookupV (k : String) : List (String × Val) → Option Val
  | [] => none
  | (k', v) :: t => if k = k' then some v else lookupV k t

/-- Termination measure of the serializer: heap addresses not yet on the
traversal path. -/
def countUnvisited (h : Heap) (visited : List Nat) : Nat :=
  ((h.map Prod.fst).toFinset \ visited.toFinset).card

/-- A log record as the formatter receives it: level, the already rendered
RFC3339Nano timestamp, message, and the field map as an association list in
map iteration order. -/
structure LogRecord where
  level : LogLevel
  ts : String
  msg : String
  fields : List (String × Val)

lemma heapFind_mem {h : Heap} {a : Nat} {o : HObj} (hf : heapFind h a = some o) :
    a ∈ h.map Prod.fst := by
  induction h with
  | nil => simp [heapFind] at hf
  | cons x t ih =>
    obtain ⟨b, o'⟩ := x
    by_cases hab : a = b
    · subst hab; simp
    · simp only [heapFind, if_neg hab] at hf
      exact List.mem_cons_of_mem _ (ih hf)

lemma countUnvisited_cons_lt (h : Heap) (a : Nat) (vis : List Nat)
    (hmem : a ∈ h.map Prod.fst) (hnv : ¬ a ∈ vis) :
    countUnvisited h (a :: vis) < countUnvisited h vis := by
  have h1 : a ∈ (List.map Prod.fst h).toFinset \ vis.toFinset := by
    rw [Finset.mem_sdiff]
    exact ⟨List.mem_toFinset.mpr hmem, fun hc => hnv (List.mem_toFinset.mp hc)⟩
  have h2 : (List.map Prod.fst h).toFinset \ (a :: vis).toFinset =
      ((List.map Prod.fst h).toFinset \ vis.toFinset).erase a := by
    ext x
    simp only [Finset.mem_sdiff, List.toFinset_cons, Finset.mem_insert, Finset.mem_erase,
      List.mem_toFinset]
    tauto
  unfold countUnvisited
  rw [h2]
  exact Finset.card_erase_lt_of_mem h1

/-! ### Struct field resolution (shared by the reflect.Struct arms of
src/unnamed/part_000 and src/loggo/core/formatter/text.go) -/

/-- A Go struct field as reflection shows it: name, the raw json tag when one
is set (Tag.Get returns the empty string for no tag; the model carries none
then), whether the field is exported, and its value. -/
abbrev GoField := String × Option String × Bool × Val

/-- strings.Split(tag, comma). -/
def splitCommaAux : List Char → List Char → List String
  | [], acc => [String.mk acc.reverse]
  | ',' :: t, acc => String.mk acc.reverse :: splitCommaAux t []
  | c :: t, acc => splitCommaAux t (c :: acc)

/-- strings.Split(tag, comma). -/
def splitComma (s : String) : List String :=
  splitCommaAux s.data []

mutual

/-- reflect.Value.IsZero on the embedded value domain: zero scalar, empty
string, false, nil; a non-nil reference (map, slice, byte slice) is never
zero, a nil pointer is, a struct is zero when all its fields are. A finite
float is zero when its rendering is the zero numeral. -/
def isZeroVal : Val → Bool
  | .vNull => true
  | .vBool b => !b
  | .vInt n => n == 0
  | .vUInt n => n == 0
  | .vFloat (.fin r) => r == "0"
  | .vFloat _ => false
  | .vStr s => s == ""
  | .vDur s => s == "0s"
  | .vTime _ => false
  | .vErr _ => false
  | .vStringer _ => false
  | .vMap _ => false
  | .vSlice _ => false
  | .vPtr a => a.isNone
  | .vStruct fs => isZeroFields fs
  | .vBytes _ _ => false
  | .vUnsupported _ _ => false

/-- reflect.Value.IsZero over the fields of a struct. -/
def isZeroFields : List GoField → Bool
  | [] => true
  | (_, _, _, v) :: t => isZeroVal v && isZeroFields t

end

/-- Effective key of one struct field in the clean variant (src/unnamed/part_000
lines 238 to 263, identical in src/loggo/core/formatter/text.go): unexported
dropped; tag name - dropped; rename honored; omitempty with a zero value
dropped; none means the field is skipped. -/
def structKeyClean : GoField → Option String
  | (name, tag, exported, v) =>
    if ¬ exported then none
    else
      match tag with
      | none => some name
      | some tg =>
        if tg = "" then some name
        else
          let parts := splitComma tg
          let hd := parts.headD ""
          if hd = "-" then none
          else
            let key := if hd ≠ "" then hd else name
            if parts.tail.contains "omitempty" ∧ isZeroVal v then none
            else some key

/-- The retained (effective key, value) pairs of the clean struct arm, sorted
by key with sort.Slice. -/
def resolveClean (fs : List GoField) : List (String × Val) :=
  sortPairs (fs.filterMap (fun f => (structKeyClean f).map (fun k => (k, f.2.2.2))))

/-! ### Termination ranks: the second component of the serializer's measure.
The first component, countUnvisited, drops whenever a tracked reference is
marked; the rank orders the calls that keep the visited path unchanged
(struct fields, the children of one container level, the dispatch from
writeJSON to writeByReflect). -/

mutual

/-- Rank of a value: only a struct (whose fields are traversed without any
marking) contributes. -/
def vrank : Val → Nat
  | .vStruct fs => frank fs + 1
  | _ => 0

/-- Rank of a struct field list. -/
def frank : List GoField → Nat
  | [] => 0
  | (_, _, _, v) :: t => vrank v + frank t + 2

end

/-- Rank of a (key, value) pair list. -/
def prank : List (String × Val) → Nat
  | [] => 0
  | (_, v) :: t => vrank v + prank t + 2

/-- Rank of an element list. -/
def erank : List Val → Nat
  | [] => 0
  | v :: t => vrank v + erank t + 2

lemma prank_perm {l1 l2 : List (String × Val)} (hp : l1.Perm l2) :
    prank l1 = prank l2 := by
  induction hp with
  | nil => rfl
  | cons x p ih => obtain ⟨k, v⟩ := x; simp only [prank, ih]
  | swap x y l =>
    obtain ⟨kx, vx⟩ := x
    obtain ⟨ky, vy⟩ := y
    simp only [prank]
    omega
  | trans p1 p2 ih1 ih2 => rw [ih1, ih2]

lemma sortPairsInsert_perm {α : Type} (x : String × α) (l : List (String × α)) :
    (sortPairsInsert x l).Perm (x :: l) := by
  induction l with
  | nil => simp [sortPairsInsert]
  | cons y t ih =>
    rw [sortPairsInsert]
    by_cases hxy : strLe x.1 y.1 = true
    · simp [hxy]
    · simp only [hxy, Bool.false_eq_true, if_false]
      exact List.Perm.trans (List.Perm.cons y ih) (List.Perm.swap x y t)

lemma sortPairs_perm {α : Type} (l : List (String × α)) : (sortPairs l).Perm l := by
  induction l with
  | nil => simp [sortPairs]
  | cons x t ih =>
    rw [sortPairs]
    exact List.Perm.trans (sortPairsInsert_perm x (sortPairs t)) (List.Perm.cons x ih)

lemma prank_filterMap_le (fs : List GoField) :
    prank (fs.filterMap (fun f => (structKeyClean f).map (fun k => (k, f.2.2.2)))) ≤
      frank fs := by
  induction fs with
  | nil => simp [prank]
  | cons f t ih =>
    obtain ⟨n, tg, ex, v⟩ := f
    rw [List.filterMap_cons]
    cases hk : structKeyClean (n, tg, ex, v) with
    | none =>
      simp only [Option.map_none]
      calc prank _ ≤ frank t := ih
        _ ≤ frank ((n, tg, ex, v) :: t) := by simp only [frank]; omega
    | some k =>
      simp only [Option.map_some, prank, frank]
      omega

lemma prank_resolveClean_le (fs : List GoField) : prank (resolveClean fs) ≤ frank fs := by
  unfold resolveClean
  rw [prank_perm (sortPairs_perm _)]
  exact prank_filterMap_le fs

lemma lookupV_prank {k : String} {es : List (String × Val)} {v : Val}
    (hl : lookupV k es = some v) : vrank v + 2 ≤ prank es := by
  induction es with
  | nil => simp [lookupV] at hl
  | cons e t ih =>
    obtain ⟨k', v'⟩ := e
    rw [lookupV] at hl
    by_cases hk : k = k'
    · rw [if_pos hk] at hl
      cases hl
      simp only [prank]
      omega
    · rw [if_neg hk] at hl
      have := ih hl
      simp only [prank]
      omega

lemma mem_prank {k : String} {v : Val} {ps : List (String × Val)}
    (hm : (k, v) ∈ ps) : vrank v + 2 ≤ prank ps := by
  induction ps with
  | nil => simp at hm
  | cons p t ih =>
    obtain ⟨k', v'⟩ := p
    rcases List.mem_cons.mp hm with he | ht
    · cases he
      simp only [prank]
      omega
    · have := ih ht
      simp only [prank]
      omega

lemma mem_erank {v : Val} {xs : List Val} (hm : v ∈ xs) : vrank v + 2 ≤ erank xs := by
  induction xs with
  | nil => simp at hm
  | cons x t ih =>
    rcases List.mem_cons.mp hm with he | ht
    · cases he
      simp only [erank]
      omega
    · have := ih ht
      simp only [erank]
      omega

/-! ### Base64 (encoding/base64 StdEncoding, used by the byte slice arm) -/

/-- Character of the standard base64 alphabet at an index below 64. -/
def b64Char (n : Nat) : Char :=
  "ABCDEFGHIJKLMNOPQRSTUVWXYZabcdefghijklmnopqrstuvwxyz0123456789+/".data.getD n 'A'

/-- base64.StdEncoding.EncodeToString on the byte list, three bytes a group,
padded with equals signs. -/
def base64Aux : List Nat → List Char
  | [] => []
  | [x] => [b64Char (x / 4), b64Char (x % 4 * 16), '=', '=']
  | [x, y] => [b64Char (x / 4), b64Char (x % 4 * 16 + y / 16), b64Char (y % 16 * 4), '=']
  | x :: y :: z :: t =>
    b64Char (x / 4) :: b64Char (x % 4 * 16 + y / 16) :: b64Char (y % 16 * 4 + z / 64) ::
      b64Char (z % 64) :: base64Aux t

/-- base64.StdEncoding.EncodeToString. -/
def base64Str (bs : List Nat) : String :=
  String.mk (base64Aux bs)

/-- toFloatString of src/loggo/core/formatter/help.go (strconv.FormatFloat
with the f format): bare NaN, +Inf, -Inf tokens, a finite float by its
decimal rendering. -/
def toFloatString : FloatV → String
  | .nan => "NaN"
  | .inf => "+Inf"
  | .ninf => "-Inf"
  | .fin r => r

lemma lookup_getD_vrank (k : String) (es : List (String × Val)) :
    vrank ((lookupV k es).getD .vNull) ≤ prank es := by
  cases hlv : lookupV k es with
  | none => simp [vrank]
  | some v =>
    have := lookupV_prank hlv
    simp only [Option.getD_some]
    omega

lemma renderKeys_rank_lt (k : String) (es : List (String × Val)) (len : Nat) :
    2 * vrank ((lookupV k es).getD .vNull) + 2 < 2 * prank es + len + 3 := by
  have := lookup_getD_vrank k es
  omega

lemma renderStructR_rank_lt (fs : List GoField) :
    2 * prank (resolveClean fs) < 2 * (frank fs + 1) + 1 := by
  have := prank_resolveClean_le fs
  omega

lemma textStruct_rank_lt (fs : List GoField) :
    2 * prank (resolveClean fs) < 2 * (frank fs + 1) + 2 := by
  have := prank_resolveClean_le fs
  omega

/-! ### The structured value serializer (writeJSON and writeByReflect of
src/unnamed/part_000, shared by the pooled formatter of
src/loggo/core/formatter/json.go up to the pooled struct and map arms,
which deviate and are modeled separately below) -/

/-- writeJSONFloat. -/
def writeJSONFloat : FloatV → String
  | .nan => writeJSONString "NaN"
  | .inf => writeJSONString "Infinity"
  | .ninf => writeJSONString "-Infinity"
  | .fin r => r

mutual

/-- writeJSON: depth guard first, then dispatch on the dynamic type.  A map
or slice reference passes markAndCheck: an address already on the path is the
cycle sentinel; otherwise the address is marked for the children and released
on exit (here: the children are called with the address consed onto the
path, and the parent's own path is unchanged afterwards).  Keys are sorted
with sort.Strings before emission.  A dangling address cannot arise from a Go
value; the model renders it as null without recursing.  Every value the
typed arms do not match (pointer, struct, byte slice, unsupported kind)
falls to the default arm, writeByReflect, at the same depth. -/
def writeVal (md : Nat) (h : Heap) (v : Val) (depth : Nat) (visited : List Nat) : String :=
  if depth ≥ md then writeJSONString "<max_depth>"
  else
    match v with
    | .vDur s => writeJSONString s
    | .vNull => "null"
    | .vStr s => writeJSONString s
    | .vBool b => if b then "true" else "false"
    | .vInt n => toString n
    | .vUInt n => toString n
    | .vFloat f => writeJSONFloat f
    | .vTime s => writeJSONString s
    | .vErr s => writeJSONString s
    | .vStringer s => writeJSONString s
    | .vMap a =>
      if hvis : a ∈ visited then writeJSONString "<cycle>"
      else
        match hf : heapFind h a with
        | some (.mObj es) =>
          "\x7b" ++ renderKeys md h es (sortStrs (es.map Prod.fst)) (depth + 1)
            (a :: visited) true ++ "\x7d"
        | some (.sObj _) => "null"
        | some (.pObj _) => "null"
        | none => "null"
    | .vSlice a =>
      if hvis : a ∈ visited then writeJSONString "<cycle>"
      else
        match hf : heapFind h a with
        | some (.sObj xs) =>
          "[" ++ renderElems md h xs (depth + 1) (a :: visited) true ++ "]"
        | some (.mObj _) => "null"
        | some (.pObj _) => "null"
        | none => "null"
    | .vPtr a => writeByRefl md h (.vPtr a) depth visited
    | .vStruct fs => writeByRefl md h (.vStruct fs) depth visited
    | .vBytes a bs => writeByRefl md h (.vBytes a bs) depth visited
    | .vUnsupported kind srepr => writeByRefl md h (.vUnsupported kind srepr) depth visited
  termination_by (countUnvisited h visited, 2 * vrank v + 2)
  decreasing_by
  all_goals simp only [vrank, prank, erank, List.length_cons]
  all_goals first
    | exact Prod.Lex.left _ _ (countUnvisited_cons_lt h _ visited (heapFind_mem hf) hvis)
    | exact Prod.Lex.right _ (renderStructR_rank_lt _)
    | exact Prod.Lex.right _ (renderKeys_rank_lt _ es _)
    | (refine Prod.Lex.right _ ?_
       omega)

/-- writeByReflect of src/unnamed/part_000 (lines 177 to 326; the pooled
variant src/loggo/core/formatter/json.go lines 402 onward is identical up to
its struct and map arms, modeled separately): no depth guard of its own;
markAndCheck runs before the kind switch, so a tracked reference whose
identity is on the path is the cycle sentinel.  A non-nil pointer is
tracked and its pointee re-enters writeByReflect at depth + 1; a nil pointer
(and a dangling address, which a Go value cannot produce) is null.  A struct
reached through an interface value is not addressable, so markAndCheck does
not track it; its resolved fields are emitted sorted, children through
writeJSON at depth + 1.  A byte slice checks its identity, then renders as
the base64 string.  A string keyed map and a slice behave as the
writeMapStringAny and writeSliceAny arms.  The abstract scalar tokens
(duration, time, error, stringer) carry a rendering the embedder fixed when
it chose the constructor; a pointee of such a named type is embedded by its
underlying kind constructor instead, so these arms only keep the function
total and emit the carried token. -/
def writeByRefl (md : Nat) (h : Heap) (v : Val) (depth : Nat) (visited : List Nat) : String :=
  match v with
  | .vDur s => writeJSONString s
  | .vNull => "null"
  | .vStr s => writeJSONString s
  | .vBool b => if b then "true" else "false"
  | .vInt n => toString n
  | .vUInt n => toString n
  | .vFloat f => writeJSONFloat f
  | .vTime s => writeJSONString s
  | .vErr s => writeJSONString s
  | .vStringer s => writeJSONString s
  | .vMap a =>
    if hvis : a ∈ visited then writeJSONString "<cycle>"
    else
      match hf : heapFind h a with
      | some (.mObj es) =>
        "\x7b" ++ renderKeys md h es (sortStrs (es.map Prod.fst)) (depth + 1)
          (a :: visited) true ++ "\x7d"
      | some (.sObj _) => "null"
      | some (.pObj _) => "null"
      | none => "null"
  | .vSlice a =>
    if hvis : a ∈ visited then writeJSONString "<cycle>"
    else
      match hf : heapFind h a with
      | some (.sObj xs) =>
        "[" ++ renderElems md h xs (depth + 1) (a :: visited) true ++ "]"
      | some (.mObj _) => "null"
      | some (.pObj _) => "null"
      | none => "null"
  | .vPtr none => "null"
  | .vPtr (some a) =>
    if hvis : a ∈ visited then writeJSONString "<cycle>"
    else
      match hf : heapFind h a with
      | some (.pObj pv) => writeByRefl md h pv (depth + 1) (a :: visited)
      | some (.mObj _) => "null"
      | some (.sObj _) => "null"
      | none => "null"
  | .vStruct fs =>
    "\x7b" ++ renderPairsR md h (resolveClean fs) (depth + 1) visited true ++ "\x7d"
  | .vBytes a bs =>
    if a ∈ visited then writeJSONString "<cycle>" else writeJSONString (base64Str bs)
  | .vUnsupported kind _ => writeJSONString ("<unsupported:" ++ kind ++ ">")
  termination_by (countUnvisited h visited, 2 * vrank v + 1)
  decreasing_by
  all_goals simp only [vrank, prank, erank, List.length_cons]
  all_goals first
    | exact Prod.Lex.left _ _ (countUnvisited_cons_lt h _ visited (heapFind_mem hf) hvis)
    | exact Prod.Lex.right _ (renderStructR_rank_lt _)
    | exact Prod.Lex.right _ (renderKeys_rank_lt _ es _)
    | (refine Prod.Lex.right _ ?_
       omega)

/-- The body of writeMapStringAny: emit the sorted keys, comma separated,
each as quoted key, colon, the rendered value m[k]. -/
def renderKeys (md : Nat) (h : Heap) (es : List (String × Val)) (ks : List String)
    (depth : Nat) (visited : List Nat) (first : Bool) : String :=
  match ks with
  | [] => ""
  | k :: t =>
    (if first then "" else ",") ++ writeJSONString k ++ ":" ++
      writeVal md h ((lookupV k es).getD .vNull) depth visited ++
      renderKeys md h es t depth visited false
  termination_by (countUnvisited h visited, 2 * prank es + ks.length + 3)
  decreasing_by
  all_goals simp only [vrank, prank, erank, List.length_cons]
  all_goals first
    | exact Prod.Lex.left _ _ (countUnvisited_cons_lt h _ visited (heapFind_mem hf) hvis)
    | exact Prod.Lex.right _ (renderStructR_rank_lt _)
    | exact Prod.Lex.right _ (renderKeys_rank_lt _ es _)
    | (refine Prod.Lex.right _ ?_
       omega)

/-- The body of writeSliceAny: the elements in order, comma separated. -/
def renderElems (md : Nat) (h : Heap) (xs : List Val) (depth : Nat) (visited : List Nat)
    (first : Bool) : String :=
  match xs with
  | [] => ""
  | x :: t =>
    (if first then "" else ",") ++ writeVal md h x depth visited ++
      renderElems md h t depth visited false
  termination_by (countUnvisited h visited, 2 * erank xs + 1)
  decreasing_by
  all_goals simp only [vrank, prank, erank, List.length_cons]
  all_goals first
    | exact Prod.Lex.left _ _ (countUnvisited_cons_lt h _ visited (heapFind_mem hf) hvis)
    | exact Prod.Lex.right _ (renderStructR_rank_lt _)
    | exact Prod.Lex.right _ (renderKeys_rank_lt _ es _)
    | (refine Prod.Lex.right _ ?_
       omega)

/-- The emission loop of the reflect.Struct arm over the resolved, sorted
fields: quoted key, colon, the child through writeJSON. -/
def renderPairsR (md : Nat) (h : Heap) (ps : List (String × Val)) (depth : Nat)
    (visited : List Nat) (first : Bool) : String :=
  match ps with
  | [] => ""
  | (k, v) :: t =>
    (if first then "" else ",") ++ writeJSONString k ++ ":" ++
      writeVal md h v depth visited ++ renderPairsR md h t depth visited false
  termination_by (countUnvisited h visited, 2 * prank ps)
  decreasing_by
  all_goals simp only [vrank, prank, erank, List.length_cons]
  all_goals first
    | exact Prod.Lex.left _ _ (countUnvisited_cons_lt h _ visited (heapFind_mem hf) hvis)
    | exact Prod.Lex.right _ (renderStructR_rank_lt _)
    | exact Prod.Lex.right _ (renderKeys_rank_lt _ es _)
    | (refine Prod.Lex.right _ ?_
       omega)

end

/-- The field region of Format: for each key of ks in order, a comma, the
quoted key, a colon and the rendered field value at depth 0 with the (empty
again, every mark released) visited set. -/
def renderFieldsTop (md : Nat) (h : Heap) (fields : List (String × Val)) :
    List String → String
  | [] => ""
  | k :: t =>
    "," ++ writeJSONString k ++ ":" ++ writeVal md h ((lookupV k fields).getD .vNull) 0 [] ++
      renderFieldsTop md h fields t

/-- Format of the current JSON formatter (src/unnamed/part_000 lines 45 to 86
and, identically up to pooling, src/loggo/core/formatter/json.go lines 262 to
310): header with level, ts and msg, then the field keys sorted with
sort.Strings and emitted in that order. -/
def formatJson (md : Nat) (h : Heap) (r : LogRecord) : String :=
  "\x7b" ++ writeJSONString "level" ++ ":" ++ writeJSONString r.level.str ++
    "," ++ writeJSONString "ts" ++ ":" ++ writeJSONString r.ts ++
    "," ++ writeJSONString "msg" ++ ":" ++ writeJSONString r.msg ++
    renderFieldsTop md h r.fields (sortStrs (r.fields.map Prod.fst)) ++ "\x7d"

/-! ### The legacy JSON formatter (first variant in
src/loggo/core/formatter/json.go; its Format iterates the field map with
range, so the emission order is the map iteration order) -/

/-- writeValue of the legacy formatter (default style, colors off). -/
def writeValueLegacy : Val → String
  | .vStr s => "\"" ++ escapeString s ++ "\""
  | .vInt n => toString n
  | .vFloat .nan => "NaN"
  | .vFloat .inf => "+Inf"
  | .vFloat .ninf => "-Inf"
  | .vFloat (.fin r) => r
  | .vBool b => if b then "true" else "false"
  | _ => "\"unsupported_type\""

/-- The field region of the legacy Format: the fields in map iteration order,
no sorting. -/
def legacyFields : List (String × Val) → String
  | [] => ""
  | (k, v) :: t => ",\"" ++ escapeString k ++ "\":" ++ writeValueLegacy v ++ legacyFields t

/-- Format of the legacy JSON formatter (src/loggo/core/formatter/json.go
lines 32 to 73, default style): header, then the fields exactly in map
iteration order. -/
def formatLegacy (r : LogRecord) : String :=
  "\x7b\"level\":\"" ++ r.level.str ++ "\",\"ts\":\"" ++ r.ts ++ "\",\"msg\":\"" ++
    escapeString r.msg ++ "\"" ++ legacyFields r.fields ++ "\x7d"

/-! ### The text formatter (src/loggo/core/formatter/text.go; the default
style of NewTextFormatter has every color flag off, so colorizeKey and
colorizeValue are the identity) -/

/-- padLevel: pad the level name with spaces to width seven. -/
def padLevel (s : String) : String :=
  if s.length < 7 then s ++ String.mk (List.replicate (7 - s.length) ' ') else s

mutual

/-- renderText of src/loggo/core/formatter/text.go: depth guard first, then
the typed arms (duration by its token, nil, string through strconv.Quote
with the multiline mark, bool, integers, floats through toFloatString,
map[string]any and []any behind markAndCheck with brace or bracket
delimiters, comma-space separators and children at depth + 1), then one
inline reflect arm: markAndCheck before the kind switch, a nil pointer is
null, a non-nil pointer is tracked and its pointee re-enters renderText at
depth + 1, a struct (never addressable through an interface, hence not
tracked) resolves its fields exactly as the JSON clean arm and emits them
sorted with children at depth + 1, a byte slice prints as a byte-length
token, and an unsupported kind falls to fmt.Sprint, whose rendering the
constructor carries.  A dangling address cannot arise from a Go value; the
model renders it as null without recursing.  The abstract scalar tokens
(time, error, stringer) have no typed arm in renderText - the embedder
models such a value by its underlying kind - so those arms only keep the
function total, emitting the carried token. -/
def textVal (md : Nat) (h : Heap) (v : Val) (depth : Nat) (visited : List Nat) : String :=
  if depth ≥ md then "<max_depth>"
  else
    match v with
    | .vDur s => s
    | .vNull => "null"
    | .vStr s => quoteStr (addMultilineMark s)
    | .vBool b => if b then "true" else "false"
    | .vInt n => toString n
    | .vUInt n => toString n
    | .vFloat f => toFloatString f
    | .vTime s => s
    | .vErr s => s
    | .vStringer s => s
    | .vMap a =>
      if hvis : a ∈ visited then "<cycle>"
      else
        match hf : heapFind h a with
        | some (.mObj es) =>
          "\x7b" ++ textKeys md h es (sortStrs (es.map Prod.fst)) (depth + 1)
            (a :: visited) true ++ "\x7d"
        | some (.sObj _) => "null"
        | some (.pObj _) => "null"
        | none => "null"
    | .vSlice a =>
      if hvis : a ∈ visited then "<cycle>"
      else
        match hf : heapFind h a with
        | some (.sObj xs) =>
          "[" ++ textElems md h xs (depth + 1) (a :: visited) true ++ "]"
        | some (.mObj _) => "null"
        | some (.pObj _) => "null"
        | none => "null"
    | .vPtr none => "null"
    | .vPtr (some a) =>
      if hvis : a ∈ visited then "<cycle>"
      else
        match hf : heapFind h a with
        | some (.pObj pv) => textVal md h pv (depth + 1) (a :: visited)
        | some (.mObj _) => "null"
        | some (.sObj _) => "null"
        | none => "null"
    | .vStruct fs =>
      "\x7b" ++ textPairs md h (resolveClean fs) (depth + 1) visited true ++ "\x7d"
    | .vBytes a bs =>
      if a ∈ visited then "<cycle>" else "[]byte(" ++ toString bs.length ++ ")"
    | .vUnsupported _ srepr => srepr
  termination_by (countUnvisited h visited, 2 * vrank v + 2)
  decreasing_by
  all_goals simp only [vrank, prank, erank, List.length_cons]
  all_goals first
    | exact Prod.Lex.left _ _ (countUnvisited_cons_lt h _ visited (heapFind_mem hf) hvis)
    | exact Prod.Lex.right _ (textStruct_rank_lt _)
    | exact Prod.Lex.right _ (renderKeys_rank_lt _ es _)
    | (refine Prod.Lex.right _ ?_
       omega)

/-- The map arm's emission loop of renderText: key, colon-space, the child,
comma-space separated. -/
def textKeys (md : Nat) (h : Heap) (es : List (String × Val)) (ks : List String)
    (depth : Nat) (visited : List Nat) (first : Bool) : String :=
  match ks with
  | [] => ""
  | k :: t =>
    (if first then "" else ", ") ++ k ++ ": " ++
      textVal md h ((lookupV k es).getD .vNull) depth visited ++
      textKeys md h es t depth visited false
  termination_by (countUnvisited h visited, 2 * prank es + ks.length + 3)
  decreasing_by
  all_goals simp only [vrank, prank, erank, List.length_cons]
  all_goals first
    | exact Prod.Lex.right _ (renderKeys_rank_lt _ es _)
    | (refine Prod.Lex.right _ ?_
       omega)

/-- The slice arm's emission loop of renderText. -/
def textElems (md : Nat) (h : Heap) (xs : List Val) (depth : Nat) (visited : List Nat)
    (first : Bool) : String :=
  match xs with
  | [] => ""
  | x :: t =>
    (if first then "" else ", ") ++ textVal md h x depth visited ++
      textElems md h t depth visited false
  termination_by (countUnvisited h visited, 2 * erank xs + 1)
  decreasing_by
  all_goals simp only [vrank, prank, erank, List.length_cons]
  all_goals (refine Prod.Lex.right _ ?_
             omega)

/-- The struct arm's emission loop of renderText over the resolved, sorted
fields. -/
def textPairs (md : Nat) (h : Heap) (ps : List (String × Val)) (depth : Nat)
    (visited : List Nat) (first : Bool) : String :=
  match ps with
  | [] => ""
  | (k, v) :: t =>
    (if first then "" else ", ") ++ k ++ ": " ++
      textVal md h v depth visited ++ textPairs md h t depth visited false
  termination_by (countUnvisited h visited, 2 * prank ps)
  decreasing_by
  all_goals simp only [vrank, prank, erank, List.length_cons]
  all_goals (refine Prod.Lex.right _ ?_
             omega)

end

/-- The field region of the text Format: for each key of ks in order, a
space, the key, an equals sign and the rendered field value at depth 0 with
the (empty again, every mark released) visited set. -/
def textFieldsTop (md : Nat) (h : Heap) (fields : List (String × Val)) :
    List String → String
  | [] => ""
  | k :: t =>
    " " ++ k ++ "=" ++ textVal md h ((lookupV k fields).getD .vNull) 0 [] ++
      textFieldsTop md h fields t

/-- Format of the text formatter (src/loggo/core/formatter/text.go lines 39
to 78, default style): bracketed timestamp, the padded level, an arrow, the
message, and, when fields exist, a bar followed by the fields with their
keys sorted by sort.Strings.  The record's ts stands for the already
rendered timestamp in this formatter's format. -/
def formatText (md : Nat) (h : Heap) (r : LogRecord) : String :=
  "[" ++ r.ts ++ "] " ++ padLevel r.level.str ++ " " ++ "→ " ++ r.msg ++
    (if r.fields.isEmpty then ""
     else " |" ++ textFieldsTop md h r.fields (sortStrs (r.fields.map Prod.fst)))

/-! ### Struct rendering (the reflect.Struct arms) -/

/-- Comma separated "key":value pairs of a struct body. -/
def renderPairs (md : Nat) (h : Heap) (ps : List (String × Val)) (depth : Nat)
    (visited : List Nat) (first : Bool) : String :=
  match ps with
  | [] => ""
  | (k, v) :: t =>
    (if first then "" else ",") ++ writeJSONString k ++ ":" ++
      writeVal md h v depth visited ++ renderPairs md h t depth visited false

/-- The clean reflect.Struct arm (src/unnamed/part_000 lines 228 to 276): one
brace-delimited object over the resolved, sorted fields, each child rendered
at depth + 1. -/
def renderStructClean (md : Nat) (h : Heap) (fs : List GoField) (depth : Nat)
    (visited : List Nat) : String :=
  "\x7b" ++ renderPairs md h (resolveClean fs) (depth + 1) visited true ++ "\x7d"

/-- getStructFields of the pooled formatter (src/loggo/core/formatter/json.go
lines 220 to 260): like the clean resolution, but omitempty is kept as a flag
instead of being applied at resolve time, and the result is cached sorted by
key. -/
def resolvePooled (fs : List GoField) : List (String × Bool × Val) :=
  sortPairs (fs.filterMap (fun f =>
    match f with
    | (name, tag, exported, v) =>
      if ¬ exported then none
      else
        let keyOmit : Option (String × Bool) :=
          match tag with
          | none => some (name, false)
          | some tg =>
            if tg = "" then some (name, false)
            else
              let parts := splitComma tg
              let hd := parts.headD ""
              if hd = "-" then none
              else
                let key := if hd ≠ "" then hd else name
                some (key, parts.tail.contains "omitempty")
        match keyOmit with
        | none => none
        | some (key, om) => if key = "" then none else some (key, om, v)))

/-- First emission pass of the pooled reflect.Struct arm: fields whose
omitempty flag is set and whose value is zero are skipped; commas are driven
by a first flag. -/
def renderPooledFiltered (md : Nat) (h : Heap) (ps : List (String × Bool × Val))
    (depth : Nat) (visited : List Nat) (first : Bool) : String :=
  match ps with
  | [] => ""
  | (k, om, v) :: t =>
    if om ∧ isZeroVal v then renderPooledFiltered md h t depth visited first
    else
      (if first then "" else ",") ++ writeJSONString k ++ ":" ++
        writeVal md h v depth visited ++ renderPooledFiltered md h t depth visited false

/-- Second emission pass of the pooled reflect.Struct arm: every resolved
field, commas by index, no omitempty filtering. -/
def renderPooledAll (md : Nat) (h : Heap) (ps : List (String × Bool × Val))
    (depth : Nat) (visited : List Nat) (first : Bool) : String :=
  match ps with
  | [] => ""
  | (k, _, v) :: t =>
    (if first then "" else ",") ++ writeJSONString k ++ ":" ++
      writeVal md h v depth visited ++ renderPooledAll md h t depth visited false

/-- The pooled reflect.Struct arm as written in
src/loggo/core/formatter/json.go lines 453 to 485: opening brace, the
filtered pass, a closing brace, then a second full pass over the same fields
and another closing brace. -/
def renderStructPooled (md : Nat) (h : Heap) (fs : List GoField) (depth : Nat)
    (visited : List Nat) : String :=
  let fields := resolvePooled fs
  "\x7b" ++ renderPooledFiltered md h fields (depth + 1) visited true ++ "\x7d" ++
    renderPooledAll md h fields (depth + 1) visited true ++ "\x7d"

/-! ### The pooled reflect.Map arm and its key slice (src/loggo/core/formatter/json.go
lines 187 to 193 and 488 to 510) -/

/-- getKeysSlice of the pooled formatter: the pooled slice is returned
re-sliced to length zero (s colon 0, or a fresh make with length 0), whatever
capacity was requested. -/
def getKeysSlice (n : Nat) : List String :=
  []

/-- Indexed slice assignment ss[i] = x: none models the index out of range
panic. -/
def setIdx : List String → Nat → String → Option (List String)
  | [], _, _ => none
  | _ :: t, 0, x => some (x :: t)
  | y :: t, Nat.succ i, x => (setIdx t i x).map (fun t' => y :: t')

/-- The fill loop of the pooled reflect.Map arm: for i, k range keys, ss[i] =
k.String(). -/
def fillKeysAux : List String → Nat → List String → Option (List String)
  | [], _, ss => some ss
  | k :: t, i, ss =>
    match setIdx ss i k with
    | none => none
    | some ss' => fillKeysAux t (i + 1) ss'

/-- Filling getKeysSlice(len keys) from the key list. -/
def fillKeys (ks : List String) : Option (List String) :=
  fillKeysAux ks 0 (getKeysSlice ks.length)

/-- The pooled reflect.Map arm for a string-keyed map: fill the pooled key
slice by index, sort it, emit the object; none models the panic of the fill
loop. -/
def writeMapReflectPooled (md : Nat) (h : Heap) (es : List (String × Val))
    (depth : Nat) (visited : List Nat) : Option String :=
  match fillKeys (es.map Prod.fst) with
  | none => none
  | some ss =>
    some ("\x7b" ++ renderKeys md h es (sortStrs ss) (depth + 1) visited true ++ "\x7d")

/-! ### Route queue (RouteProcessor.Enqueue, the two variants of
src/loggo/core/style.go) -/

/-- The mutable part of a RouteProcessor that Enqueue touches: the closed
flag and the buffered channel contents (capacity 1024, as NewRouteProcessor
makes it). -/
structure RouteQ (β : Type) where
  closed : Bool
  queue : List β
  deriving DecidableEq, Repr

/-- Enqueue of the blocking variant (src/loggo/core/style.go lines 84 to 91):
under the read lock, a closed route discards the record and returns; an open
route sends on the channel, blocking while the channel is full.  some s' is a
completed call leaving state s'; none is a call still blocked in the send (the
record is neither delivered nor dropped yet). -/
def enqueueBlocking (s : RouteQ β) (r : β) : Option (RouteQ β) :=
  if s.closed then some s
  else if s.queue.length < 1024 then some { s with queue := s.queue ++ [r] }
  else none

/-- Enqueue of the non-blocking variant (src/loggo/core/style.go lines 214 to
227): closed discards; otherwise a select with a default arm sends only when
the channel has room and silently drops the record when it is full. -/
def enqueueDropping (s : RouteQ β) (r : β) : RouteQ β :=
  if s.closed then s
  else if s.queue.length < 1024 then { s with queue := s.queue ++ [r] }
  else s

/-! ### Route pipeline traces (RouteProcessor.Start, drainQueue, Close of
src/loggo/core/router.go and Logger.Close of src/loggo/core/logger.go) -/

/-- One route's pipeline state: the channel contents, the closed flag, whether
the consumer goroutine is still running, the accepted records (ghost history
of completed Enqueue sends), the bytes handed to the sink in order, and how
often Flush ran. -/
structure RouteSys (β γ : Type) where
  queue : List β
  closed : Bool
  alive : Bool
  accepted : List β
  written : List γ
  flushes : Nat

/-- The state right after NewLogger started the consumer. -/
def initSys : RouteSys β γ :=
  { queue := [], closed := false, alive := true, accepted := [], written := [], flushes := 0 }

/-- The steps of one route, with fmt the formatter (Format never fails on the
records this route carries) and flushable whether the sink implements Flush:
accept is an Enqueue whose send completed (the closed flag was not set, and a
send that completes found channel room; a send into a closed channel panics,
so no accept happens after close); consume is the consumer loop body (receive,
format, write); closeRoute is RouteProcessor.Close closing the channel once;
finish is the consumer observing the closed, drained channel: drainQueue ends,
Flush runs once when the sink supports it, the goroutine exits (its WaitGroup
done), which is what Logger.Close waits for. -/
inductive RStep (fmt : β → γ) (flushable : Bool) : RouteSys β γ → RouteSys β γ → Prop
  | accept (s : RouteSys β γ) (r : β) (hcl : s.closed = false)
      (hroom : s.queue.length < 1024) :
      RStep fmt flushable s
        { s with queue := s.queue ++ [r], accepted := s.accepted ++ [r] }
  | consume (s : RouteSys β γ) (r : β) (t : List β) (hq : s.queue = r :: t)
      (hal : s.alive = true) :
      RStep fmt flushable s
        { s with queue := t, written := s.written ++ [fmt r] }
  | closeRoute (s : RouteSys β γ) (hcl : s.closed = false) :
      RStep fmt flushable s { s with closed := true }
  | finish (s : RouteSys β γ) (hcl : s.closed = true) (hq : s.queue = [])
      (hal : s.alive = true) :
      RStep fmt flushable s
        { s with alive := false,
                 flushes := s.flushes + (if flushable then 1 else 0) }

/-- States reachable from the freshly started route. -/
inductive RReach (fmt : β → γ) (flushable : Bool) : RouteSys β γ → Prop
  | init : RReach fmt flushable initSys
  | step {s s' : RouteSys β γ} (hr : RReach fmt flushable s)
      (hs : RStep fmt flushable s s') : RReach fmt flushable s'

/-! ### The rotating file sink (FileWriter of src/unnamed/part_007) -/

/-- The FileWriter configuration and mutable state the rotation logic reads
and writes: the target path (taken to live in the working directory, so
filepath.Base gives it back), the rotation limits, the interval name (day,
week, month, or empty for none), the next scheduled rotation instant and the
tracked size (both as integers, nanoseconds and bytes). -/
structure FileWriter where
  path : String
  maxSizeMB : Int
  maxBackups : Int
  rotateInterval : String
  nextRotateTime : Int
  size : Int
  deriving DecidableEq, Repr

/-- shouldRotateByTime (src/unnamed/part_007 lines 142 to 147): no time
rotation for the empty interval, else now strictly after the scheduled
instant. -/
def shouldRotateByTime (fw : FileWriter) (now : Int) : Bool :=
  if fw.rotateInterval = "" then false
  else now > fw.nextRotateTime

/-- shouldRotateBySize (src/unnamed/part_007 lines 149 to 151). -/
def shouldRotateBySize (fw : FileWriter) (incoming : Int) : Bool :=
  fw.maxSizeMB > 0 ∧ fw.size + incoming > fw.maxSizeMB * 1024 * 1024

/-- cleanupBackups (src/unnamed/part_007 lines 184 to 220, identical in
src/core/writer/file.go lines 145 to 181) as a function of the directory
listing: nothing is removed when maxBackups is not positive; the entries
whose name begins with the base name and a dot are collected, and when they
number more than maxBackups, the list is sorted by name and the oldest
count minus maxBackups are removed.  Returns the directory after the
removals together with the removed names. -/
def cleanupBackups (path : String) (maxBackups : Int) (names : List String) :
    List String × List String :=
  if maxBackups ≤ 0 then (names, [])
  else
    let backups := names.filter (fun n => strStarts (path ++ ".") n)
    if (backups.length : Int) ≤ maxBackups then (names, [])
    else
      let sortedB := sortStrs backups
      let removed := sortedB.take (((backups.length : Int) - maxBackups).toNat)
      (names.filter (fun n => ¬ n ∈ removed), removed)

/-- rotate (src/unnamed/part_007 lines 153 to 182): flush and close the
current file, rename it to path dot timestamp, spawn background compression
of the renamed file when a compressor is configured (asynchronous, so the
directory at return still holds the renamed file), open a fresh file at
path, reset the tracked size to zero, run cleanupBackups.  Nothing in the
function touches nextRotateTime.  The returned triple is the new writer
state, the directory listing after the rename, the reopen and the cleanup,
and the renamed archive name. -/
def rotate (fw : FileWriter) (ts : String) (names : List String) :
    FileWriter × List String × String :=
  let renamed := fw.path ++ "." ++ ts
  let afterRename := names.map (fun n => if n = fw.path then renamed else n)
  let afterOpen := afterRename ++ [fw.path]
  let cleaned := (cleanupBackups fw.path fw.maxBackups afterOpen).1
  ({ fw with size := 0 }, cleaned, renamed)

/-- The number of directory entries whose name starts with the base name and
a dot. -/
def countArchives (path : String) (names : List String) : Nat :=
  (names.filter (fun n => strStarts (path ++ ".") n)).length

/-- Two heaps describe the same value graph up to map iteration order: the
same addresses in the same cells, slices elementwise identical, and each map
cell holding a permutation (with no duplicate keys, as a Go map guarantees)
of the other's entry list. -/
inductive HeapPerm : Heap → Heap → Prop
  | nil : HeapPerm [] []
  | consM {a : Nat} {es1 es2 : List (String × Val)} {t1 t2 : Heap}
      (hp : es1.Perm es2) (hnd : (es1.map Prod.fst).Nodup)
      (ht : HeapPerm t1 t2) : HeapPerm ((a, .mObj es1) :: t1) ((a, .mObj es2) :: t2)
  | consS {a : Nat} {l : List Val} {t1 t2 : Heap} (ht : HeapPerm t1 t2) :
      HeapPerm ((a, .sObj l) :: t1) ((a, .sObj l) :: t2)
  | consP {a : Nat} {v : Val} {t1 t2 : Heap} (ht : HeapPerm t1 t2) :
      HeapPerm ((a, .pObj v) :: t1) ((a, .pObj v) :: t2)

/-- Concrete heap with a self-referential map: m with m maps self to m. -/
def cycleHeap : Heap := [(0, .mObj [("self", .vMap 0)])]

/-- Record carrying the field x bound to the cyclic map. -/
def cycleRec : LogRecord :=
  { level := .info, ts := "2025-08-14T15:30:00Z", msg := "hello",
    fields := [("x", .vMap 0)] }

/-- Concrete diamond: a slice whose two elements are the same map cell
(acyclic sharing). -/
def diamondHeap : Heap := [(7, .mObj [("k", .vStr "v")]), (8, .sObj [.vMap 7, .vMap 7])]

/-- Concrete nesting for the depth example: the field value is the map
level2 to (map level3 to "deep"). -/
def depthHeap : Heap :=
  [(1, .mObj [("level2", .vMap 2)]), (2, .mObj [("level3", .vStr "deep")])]

/-- Concrete aggregate cycle: a struct value whose exported field Next
points back at the cell holding the struct itself (t.Next = &t), reached
through that pointer. -/
def ptrCycleHeap : Heap :=
  [(1, .pObj (.vStruct [("Next", none, true, .vPtr (some 1))]))]

/-- Record with fields b then a in map iteration order. -/
def recBA : LogRecord :=
  { level := .info, ts := "2025-08-14T15:30:00Z", msg := "hello",
    fields := [("b", .vInt 1), ("a", .vInt 2)] }

/-- The same field map as recBA, iterated in the other order. -/
def recAB : LogRecord :=
  { level := .info, ts := "2025-08-14T15:30:00Z", msg := "hello",
    fields := [("a", .vInt 2), ("b", .vInt 1)] }

/-- A full route channel (capacity 1024) that is not closed. -/
def fullQ : RouteQ Nat := { closed := false, queue := List.replicate 1024 0 }

/-- A file writer with daily rotation whose scheduled instant has passed. -/
def fwEx : FileWriter :=
  { path := "app.log", maxSizeMB := 0, maxBackups := 0, rotateInterval := "day",
    nextRotateTime := 100, size := 5 }

/-! ## Supporting lemmas -/

lemma charsLe_total : ∀ (l1 l2 : List Char), charsLe l1 l2 = true ∨ charsLe l2 l1 = true := by
  intro l1
  induction l1 with
  | nil => intro l2; left; rfl
  | cons a t ih =>
    intro l2
    cases l2 with
    | nil => right; rfl
    | cons b u =>
      by_cases hab : a < b
      · left
        simp [charsLe, hab]
      · by_cases hba : b < a
        · right
          simp [charsLe, hba]
        · rcases ih u with h | h
          · left
            simp [charsLe, hab, hba, h]
          · right
            simp [charsLe, hab, hba, h]

lemma charsLe_trans : ∀ {l1 l2 l3 : List Char}, charsLe l1 l2 = true →
    charsLe l2 l3 = true → charsLe l1 l3 = true := by
  intro l1
  induction l1 with
  | nil => intro l2 l3 h12 h23; rfl
  | cons a t ih =>
    intro l2 l3 h12 h23
    cases l2 with
    | nil => simp [charsLe] at h12
    | cons b u =>
      cases l3 with
      | nil => simp [charsLe] at h23
      | cons c v =>
        by_cases hab : a < b
        · by_cases hbc : b < c
          · simp [charsLe, lt_trans hab hbc]
          · by_cases hcb : c < b
            · simp [charsLe, hbc, hcb] at h23
            · have hbc2 : b = c := le_antisymm (not_lt.mp hcb) (not_lt.mp hbc)
              subst hbc2
              simp [charsLe, hab]
        · by_cases hba : b < a
          · simp [charsLe, hab, hba] at h12
          · have hab2 : a = b := le_antisymm (not_lt.mp hba) (not_lt.mp hab)
            subst hab2
            simp only [charsLe, if_neg hab, if_neg hba] at h12
            by_cases hac : a < c
            · simp [charsLe, hac]
            · by_cases hca : c < a
              · simp [charsLe, hac, hca] at h23
              · have hac2 : a = c := le_antisymm (not_lt.mp hca) (not_lt.mp hac)
                subst hac2
                simp only [charsLe, if_neg hac, if_neg hca] at h23 ⊢
                exact ih h12 h23

lemma charsLe_antisymm : ∀ {l1 l2 : List Char}, charsLe l1 l2 = true →
    charsLe l2 l1 = true → l1 = l2 := by
  intro l1
  induction l1 with
  | nil =>
    intro l2 h12 h21
    cases l2 with
    | nil => rfl
    | cons b u => simp [charsLe] at h21
  | cons a t ih =>
    intro l2 h12 h21
    cases l2 with
    | nil => simp [charsLe] at h12
    | cons b u =>
      by_cases hab : a < b
      · simp [charsLe, hab, lt_asymm hab] at h21
      · by_cases hba : b < a
        · simp [charsLe, hab, hba] at h12
        · have hab2 : a = b := le_antisymm (not_lt.mp hba) (not_lt.mp hab)
          subst hab2
          simp only [charsLe, if_neg hab, if_neg hba] at h12 h21
          rw [ih h12 h21]

lemma strLe_total (a b : String) : strLe a b = true ∨ strLe b a = true :=
  charsLe_total a.data b.data

lemma strLe_trans {a b c : String} (h1 : strLe a b = true) (h2 : strLe b c = true) :
    strLe a c = true :=
  charsLe_trans h1 h2

lemma strLe_antisymm {a b : String} (h1 : strLe a b = true) (h2 : strLe b a = true) :
    a = b := by
  cases a with
  | mk da =>
    cases b with
    | mk db =>
      have : da = db := charsLe_antisymm h1 h2
      rw [this]

lemma sortInsert_perm (x : String) (l : List String) : (sortInsert x l).Perm (x :: l) := by
  induction l with
  | nil => simp [sortInsert]
  | cons y t ih =>
    rw [sortInsert]
    by_cases hxy : strLe x y = true
    · simp [hxy]
    · simp only [hxy, Bool.false_eq_true, if_false]
      exact List.Perm.trans (List.Perm.cons y ih) (List.Perm.swap x y t)

lemma sortStrs_perm (l : List String) : (sortStrs l).Perm l := by
  induction l with
  | nil => simp [sortStrs]
  | cons x t ih =>
    rw [sortStrs]
    exact List.Perm.trans (sortInsert_perm x (sortStrs t)) (List.Perm.cons x ih)

lemma sortInsert_sorted (x : String) (l : List String)
    (hs : l.Sorted (fun a b => strLe a b = true)) :
    (sortInsert x l).Sorted (fun a b => strLe a b = true) := by
  induction l with
  | nil => simp [sortInsert]
  | cons y t ih =>
    rw [sortInsert]
    by_cases hxy : strLe x y = true
    · simp only [hxy, if_true]
      refine List.sorted_cons.mpr ⟨?_, hs⟩
      intro b hb
      rcases List.mem_cons.mp hb with rfl | hbt
      · exact hxy
      · exact strLe_trans hxy (List.rel_of_sorted_cons hs b hbt)
    · simp only [hxy, Bool.false_eq_true, if_false]
      have hyt : t.Sorted (fun a b => strLe a b = true) := List.Sorted.of_cons hs
      refine List.sorted_cons.mpr ⟨?_, ih hyt⟩
      intro b hb
      have hb2 : b ∈ x :: t := (sortInsert_perm x t).mem_iff.mp hb
      rcases List.mem_cons.mp hb2 with rfl | hbt
      · rcases strLe_total y b with h | h
        · exact h
        · exact absurd h hxy
      · exact List.rel_of_sorted_cons hs b hbt

lemma sortStrs_sorted (l : List String) :
    (sortStrs l).Sorted (fun a b => strLe a b = true) := by
  induction l with
  | nil => simp [sortStrs]
  | cons x t ih =>
    rw [sortStrs]
    exact sortInsert_sorted x (sortStrs t) ih

lemma sortStrs_eq_of_perm {l1 l2 : List String} (hp : l1.Perm l2) :
    sortStrs l1 = sortStrs l2 := by
  haveI : IsAntisymm String (fun a b => strLe a b = true) :=
    ⟨fun a b h1 h2 => strLe_antisymm h1 h2⟩
  refine List.eq_of_perm_of_sorted ?_ (sortStrs_sorted l1) (sortStrs_sorted l2)
  exact List.Perm.trans (sortStrs_perm l1) (List.Perm.trans hp (sortStrs_perm l2).symm)

lemma lookupV_perm {es1 es2 : List (String × Val)} (hp : es1.Perm es2)
    (hnd : (es1.map Prod.fst).Nodup) (k : String) : lookupV k es1 = lookupV k es2 := by
  induction hp with
  | nil => rfl
  | cons x p ih =>
    obtain ⟨kx, vx⟩ := x
    rw [lookupV, lookupV]
    by_cases hk : k = kx
    · simp [hk]
    · simp only [if_neg hk]
      refine ih ?_
      simpa using (List.nodup_cons.mp (by simpa using hnd)).2
  | swap x y l =>
    obtain ⟨kx, vx⟩ := x
    obtain ⟨ky, vy⟩ := y
    have hne : ky ≠ kx := by
      have h0 := hnd
      simp only [List.map_cons, List.nodup_cons, List.mem_cons, not_or] at h0
      exact h0.1.1
    rw [lookupV, lookupV, lookupV, lookupV]
    by_cases h1 : k = ky
    · subst h1
      rw [if_pos rfl, if_neg (fun hc => hne hc), if_pos rfl]
    · rw [if_neg h1]
      by_cases h2 : k = kx
      · rw [if_pos h2, if_pos h2]
      · rw [if_neg h2, if_neg h2, if_neg h1]
  | trans p1 p2 ih1 ih2 =>
    have hnd2 := (List.Perm.nodup_iff (List.Perm.map Prod.fst p1)).mp hnd
    rw [ih1 hnd, ih2 hnd2]

lemma HeapPerm.addrs_eq {h1 h2 : Heap} (hh : HeapPerm h1 h2) :
    h1.map Prod.fst = h2.map Prod.fst := by
  induction hh with
  | nil => rfl
  | consM hp hnd ht ih => simp [ih]
  | consS ht ih => simp [ih]
  | consP ht ih => simp [ih]

lemma HeapPerm.count_eq {h1 h2 : Heap} (hh : HeapPerm h1 h2) (vis : List Nat) :
    countUnvisited h1 vis = countUnvisited h2 vis := by
  unfold countUnvisited
  rw [hh.addrs_eq]

lemma HeapPerm.find_cases {h1 h2 : Heap} (hh : HeapPerm h1 h2) (a : Nat) :
    (heapFind h1 a = none ∧ heapFind h2 a = none)
    ∨ (∃ l, heapFind h1 a = some (.sObj l) ∧ heapFind h2 a = some (.sObj l))
    ∨ (∃ v, heapFind h1 a = some (.pObj v) ∧ heapFind h2 a = some (.pObj v))
    ∨ (∃ es1 es2, heapFind h1 a = some (.mObj es1) ∧ heapFind h2 a = some (.mObj es2)
        ∧ es1.Perm es2 ∧ (es1.map Prod.fst).Nodup) := by
  induction hh with
  | nil => exact Or.inl ⟨rfl, rfl⟩
  | consM hp hnd ht ih =>
    rename_i b es1 es2 t1 t2
    by_cases hab : a = b
    · refine Or.inr (Or.inr (Or.inr ⟨es1, es2, ?_, ?_, hp, hnd⟩))
      · rw [heapFind, if_pos hab]
      · rw [heapFind, if_pos hab]
    · rw [heapFind, if_neg hab, heapFind, if_neg hab] at *
      exact ih
  | consS ht ih =>
    rename_i b l t1 t2
    by_cases hab : a = b
    · refine Or.inr (Or.inl ⟨l, ?_, ?_⟩)
      · rw [heapFind, if_pos hab]
      · rw [heapFind, if_pos hab]
    · rw [heapFind, if_neg hab, heapFind, if_neg hab] at *
      exact ih
  | consP ht ih =>
    rename_i b v t1 t2
    by_cases hab : a = b
    · refine Or.inr (Or.inr (Or.inl ⟨v, ?_, ?_⟩))
      · rw [heapFind, if_pos hab]
      · rw [heapFind, if_pos hab]
    · rw [heapFind, if_neg hab, heapFind, if_neg hab] at *
      exact ih

lemma writeVal_depth (md : Nat) (h : Heap) (v : Val) (d : Nat) (vis : List Nat)
    (hd : d ≥ md) : writeVal md h v d vis = writeJSONString "<max_depth>" := by
  rw [writeVal.eq_def]
  simp [hd]

lemma writeVal_map_cycle (md : Nat) (h : Heap) (a d : Nat) (vis : List Nat)
    (hd : ¬ d ≥ md) (hvis : a ∈ vis) :
    writeVal md h (Val.vMap a) d vis = writeJSONString "<cycle>" := by
  rw [writeVal.eq_def]
  simp [hd, hvis]

lemma writeVal_map_found (md : Nat) (h : Heap) (a d : Nat) (vis : List Nat)
    (es : List (String × Val)) (hd : ¬ d ≥ md) (hvis : ¬ a ∈ vis)
    (hf : heapFind h a = some (.mObj es)) :
    writeVal md h (Val.vMap a) d vis =
      "\x7b" ++ renderKeys md h es (sortStrs (es.map Prod.fst)) (d + 1) (a :: vis) true ++ "\x7d" := by
  rw [writeVal.eq_def]
  simp only [ge_iff_le, hd, if_false, dif_neg hvis]
  split
  · rename_i es2 hf2
    rw [hf] at hf2
    cases hf2
    rfl
  · rename_i l hf2
    simp [hf] at hf2
  · rename_i pv hf2
    simp [hf] at hf2
  · rename_i hf2
    simp [hf] at hf2

lemma writeVal_map_other (md : Nat) (h : Heap) (a d : Nat) (vis : List Nat)
    (hd : ¬ d ≥ md) (hvis : ¬ a ∈ vis)
    (hother : ∀ es, heapFind h a ≠ some (.mObj es)) :
    writeVal md h (Val.vMap a) d vis = "null" := by
  rw [writeVal.eq_def]
  simp only [ge_iff_le, hd, if_false, dif_neg hvis]
  split
  · rename_i es2 hf2
    exact absurd hf2 (hother es2)
  · rfl
  · rfl
  · rfl

lemma writeVal_slice_cycle (md : Nat) (h : Heap) (a d : Nat) (vis : List Nat)
    (hd : ¬ d ≥ md) (hvis : a ∈ vis) :
    writeVal md h (Val.vSlice a) d vis = writeJSONString "<cycle>" := by
  rw [writeVal.eq_def]
  simp [hd, hvis]

lemma writeVal_slice_found (md : Nat) (h : Heap) (a d : Nat) (vis : List Nat)
    (xs : List Val) (hd : ¬ d ≥ md) (hvis : ¬ a ∈ vis)
    (hf : heapFind h a = some (.sObj xs)) :
    writeVal md h (Val.vSlice a) d vis =
      "[" ++ renderElems md h xs (d + 1) (a :: vis) true ++ "]" := by
  rw [writeVal.eq_def]
  simp only [ge_iff_le, hd, if_false, dif_neg hvis]
  split
  · rename_i xs2 hf2
    rw [hf] at hf2
    cases hf2
    rfl
  · rename_i l hf2
    simp [hf] at hf2
  · rename_i pv hf2
    simp [hf] at hf2
  · rename_i hf2
    simp [hf] at hf2

lemma writeVal_slice_other (md : Nat) (h : Heap) (a d : Nat) (vis : List Nat)
    (hd : ¬ d ≥ md) (hvis : ¬ a ∈ vis)
    (hother : ∀ xs, heapFind h a ≠ some (.sObj xs)) :
    writeVal md h (Val.vSlice a) d vis = "null" := by
  rw [writeVal.eq_def]
  simp only [ge_iff_le, hd, if_false, dif_neg hvis]
  split
  · rename_i xs2 hf2
    exact absurd hf2 (hother xs2)
  · rfl
  · rfl
  · rfl

lemma writeVal_refl_ptr (md : Nat) (h : Heap) (a : Option Nat) (d : Nat) (vis : List Nat)
    (hd : ¬ d ≥ md) :
    writeVal md h (Val.vPtr a) d vis = writeByRefl md h (Val.vPtr a) d vis := by
  rw [writeVal.eq_def]
  simp [hd]

lemma writeVal_refl_struct (md : Nat) (h : Heap) (fs : List GoField) (d : Nat)
    (vis : List Nat) (hd : ¬ d ≥ md) :
    writeVal md h (Val.vStruct fs) d vis = writeByRefl md h (Val.vStruct fs) d vis := by
  rw [writeVal.eq_def]
  simp [hd]

lemma writeVal_refl_bytes (md : Nat) (h : Heap) (a : Nat) (bs : List Nat) (d : Nat)
    (vis : List Nat) (hd : ¬ d ≥ md) :
    writeVal md h (Val.vBytes a bs) d vis = writeByRefl md h (Val.vBytes a bs) d vis := by
  rw [writeVal.eq_def]
  simp [hd]

lemma writeVal_refl_unsup (md : Nat) (h : Heap) (kind srepr : String) (d : Nat)
    (vis : List Nat) (hd : ¬ d ≥ md) :
    writeVal md h (Val.vUnsupported kind srepr) d vis =
      writeByRefl md h (Val.vUnsupported kind srepr) d vis := by
  rw [writeVal.eq_def]
  simp [hd]

lemma writeByRefl_map_cycle (md : Nat) (h : Heap) (a d : Nat) (vis : List Nat)
    (hvis : a ∈ vis) :
    writeByRefl md h (Val.vMap a) d vis = writeJSONString "<cycle>" := by
  rw [writeByRefl.eq_def]
  simp [hvis]

lemma writeByRefl_map_found (md : Nat) (h : Heap) (a d : Nat) (vis : List Nat)
    (es : List (String × Val)) (hvis : ¬ a ∈ vis)
    (hf : heapFind h a = some (.mObj es)) :
    writeByRefl md h (Val.vMap a) d vis =
      "\x7b" ++ renderKeys md h es (sortStrs (es.map Prod.fst)) (d + 1) (a :: vis) true ++ "\x7d" := by
  rw [writeByRefl.eq_def]
  simp only [dif_neg hvis]
  split
  · rename_i es2 hf2
    rw [hf] at hf2
    cases hf2
    rfl
  · rename_i l hf2
    simp [hf] at hf2
  · rename_i pv hf2
    simp [hf] at hf2
  · rename_i hf2
    simp [hf] at hf2

lemma writeByRefl_map_other (md : Nat) (h : Heap) (a d : Nat) (vis : List Nat)
    (hvis : ¬ a ∈ vis) (hother : ∀ es, heapFind h a ≠ some (.mObj es)) :
    writeByRefl md h (Val.vMap a) d vis = "null" := by
  rw [writeByRefl.eq_def]
  simp only [dif_neg hvis]
  split
  · rename_i es2 hf2
    exact absurd hf2 (hother es2)
  · rfl
  · rfl
  · rfl

lemma writeByRefl_slice_cycle (md : Nat) (h : Heap) (a d : Nat) (vis : List Nat)
    (hvis : a ∈ vis) :
    writeByRefl md h (Val.vSlice a) d vis = writeJSONString "<cycle>" := by
  rw [writeByRefl.eq_def]
  simp [hvis]

lemma writeByRefl_slice_found (md : Nat) (h : Heap) (a d : Nat) (vis : List Nat)
    (xs : List Val) (hvis : ¬ a ∈ vis) (hf : heapFind h a = some (.sObj xs)) :
    writeByRefl md h (Val.vSlice a) d vis =
      "[" ++ renderElems md h xs (d + 1) (a :: vis) true ++ "]" := by
  rw [writeByRefl.eq_def]
  simp only [dif_neg hvis]
  split
  · rename_i xs2 hf2
    rw [hf] at hf2
    cases hf2
    rfl
  · rename_i l hf2
    simp [hf] at hf2
  · rename_i pv hf2
    simp [hf] at hf2
  · rename_i hf2
    simp [hf] at hf2

lemma writeByRefl_slice_other (md : Nat) (h : Heap) (a d : Nat) (vis : List Nat)
    (hvis : ¬ a ∈ vis) (hother : ∀ xs, heapFind h a ≠ some (.sObj xs)) :
    writeByRefl md h (Val.vSlice a) d vis = "null" := by
  rw [writeByRefl.eq_def]
  simp only [dif_neg hvis]
  split
  · rename_i xs2 hf2
    exact absurd hf2 (hother xs2)
  · rfl
  · rfl
  · rfl

lemma writeByRefl_ptr_cycle (md : Nat) (h : Heap) (a d : Nat) (vis : List Nat)
    (hvis : a ∈ vis) :
    writeByRefl md h (Val.vPtr (some a)) d vis = writeJSONString "<cycle>" := by
  rw [writeByRefl.eq_def]
  simp [hvis]

lemma writeByRefl_ptr_found (md : Nat) (h : Heap) (a d : Nat) (vis : List Nat)
    (pv : Val) (hvis : ¬ a ∈ vis) (hf : heapFind h a = some (.pObj pv)) :
    writeByRefl md h (Val.vPtr (some a)) d vis =
      writeByRefl md h pv (d + 1) (a :: vis) := by
  rw [writeByRefl.eq_def]
  simp only [dif_neg hvis]
  split
  · rename_i pv2 hf2
    rw [hf] at hf2
    cases hf2
    rfl
  · rename_i l hf2
    simp [hf] at hf2
  · rename_i l hf2
    simp [hf] at hf2
  · rename_i hf2
    simp [hf] at hf2

lemma writeByRefl_ptr_other (md : Nat) (h : Heap) (a d : Nat) (vis : List Nat)
    (hvis : ¬ a ∈ vis) (hother : ∀ pv, heapFind h a ≠ some (.pObj pv)) :
    writeByRefl md h (Val.vPtr (some a)) d vis = "null" := by
  rw [writeByRefl.eq_def]
  simp only [dif_neg hvis]
  split
  · rename_i pv2 hf2
    exact absurd hf2 (hother pv2)
  · rfl
  · rfl
  · rfl

lemma writeByRefl_struct (md : Nat) (h : Heap) (fs : List GoField) (d : Nat)
    (vis : List Nat) :
    writeByRefl md h (Val.vStruct fs) d vis =
      "\x7b" ++ renderPairsR md h (resolveClean fs) (d + 1) vis true ++ "\x7d" := by
  rw [writeByRefl.eq_def]

lemma renderKeys_nil (md : Nat) (h : Heap) (es : List (String × Val)) (d : Nat)
    (vis : List Nat) (first : Bool) : renderKeys md h es [] d vis first = "" := by
  rw [renderKeys.eq_def]

lemma renderKeys_cons (md : Nat) (h : Heap) (es : List (String × Val)) (k : String)
    (t : List String) (d : Nat) (vis : List Nat) (first : Bool) :
    renderKeys md h es (k :: t) d vis first =
      (if first then "" else ",") ++ writeJSONString k ++ ":" ++
        writeVal md h ((lookupV k es).getD .vNull) d vis ++
        renderKeys md h es t d vis false := by
  rw [renderKeys.eq_def]

lemma renderElems_nil (md : Nat) (h : Heap) (d : Nat) (vis : List Nat) (first : Bool) :
    renderElems md h [] d vis first = "" := by
  rw [renderElems.eq_def]

lemma renderElems_cons (md : Nat) (h : Heap) (x : Val) (t : List Val) (d : Nat)
    (vis : List Nat) (first : Bool) :
    renderElems md h (x :: t) d vis first =
      (if first then "" else ",") ++ writeVal md h x d vis ++
        renderElems md h t d vis false := by
  rw [renderElems.eq_def]

lemma renderPairsR_nil (md : Nat) (h : Heap) (d : Nat) (vis : List Nat) (first : Bool) :
    renderPairsR md h [] d vis first = "" := by
  rw [renderPairsR.eq_def]

lemma renderPairsR_cons (md : Nat) (h : Heap) (k : String) (v : Val)
    (t : List (String × Val)) (d : Nat) (vis : List Nat) (first : Bool) :
    renderPairsR md h ((k, v) :: t) d vis first =
      (if first then "" else ",") ++ writeJSONString k ++ ":" ++
        writeVal md h v d vis ++ renderPairsR md h t d vis false := by
  rw [renderPairsR.eq_def]

lemma writeVal_congr {h1 h2 : Heap} (hh : HeapPerm h1 h2) :
    ∀ (n m : Nat) (vis : List Nat), countUnvisited h1 vis = n →
    ∀ (md : Nat) (v : Val), vrank v = m → ∀ (d : Nat),
      writeVal md h1 v d vis = writeVal md h2 v d vis ∧
      writeByRefl md h1 v d vis = writeByRefl md h2 v d vis := by
  intro n
  induction n using Nat.strong_induction_on with
  | _ n IHn =>
  intro m
  induction m using Nat.strong_induction_on with
  | _ m IHm =>
  intro vis hcnt md v hrank d
  cases v with
  | vNull => exact ⟨by rw [writeVal.eq_def, writeVal.eq_def],
      by rw [writeByRefl.eq_def, writeByRefl.eq_def]⟩
  | vBool b => exact ⟨by rw [writeVal.eq_def, writeVal.eq_def],
      by rw [writeByRefl.eq_def, writeByRefl.eq_def]⟩
  | vInt n2 => exact ⟨by rw [writeVal.eq_def, writeVal.eq_def],
      by rw [writeByRefl.eq_def, writeByRefl.eq_def]⟩
  | vUInt n2 => exact ⟨by rw [writeVal.eq_def, writeVal.eq_def],
      by rw [writeByRefl.eq_def, writeByRefl.eq_def]⟩
  | vFloat f => exact ⟨by rw [writeVal.eq_def, writeVal.eq_def],
      by rw [writeByRefl.eq_def, writeByRefl.eq_def]⟩
  | vStr s => exact ⟨by rw [writeVal.eq_def, writeVal.eq_def],
      by rw [writeByRefl.eq_def, writeByRefl.eq_def]⟩
  | vDur s => exact ⟨by rw [writeVal.eq_def, writeVal.eq_def],
      by rw [writeByRefl.eq_def, writeByRefl.eq_def]⟩
  | vTime s => exact ⟨by rw [writeVal.eq_def, writeVal.eq_def],
      by rw [writeByRefl.eq_def, writeByRefl.eq_def]⟩
  | vErr s => exact ⟨by rw [writeVal.eq_def, writeVal.eq_def],
      by rw [writeByRefl.eq_def, writeByRefl.eq_def]⟩
  | vStringer s => exact ⟨by rw [writeVal.eq_def, writeVal.eq_def],
      by rw [writeByRefl.eq_def, writeByRefl.eq_def]⟩
  | vBytes a bs => exact ⟨by
      by_cases hd : d ≥ md
      · rw [writeVal_depth md h1 _ d vis hd, writeVal_depth md h2 _ d vis hd]
      · rw [writeVal_refl_bytes md h1 a bs d vis hd, writeVal_refl_bytes md h2 a bs d vis hd,
          writeByRefl.eq_def, writeByRefl.eq_def],
      by rw [writeByRefl.eq_def, writeByRefl.eq_def]⟩
  | vUnsupported kind srepr => exact ⟨by
      by_cases hd : d ≥ md
      · rw [writeVal_depth md h1 _ d vis hd, writeVal_depth md h2 _ d vis hd]
      · rw [writeVal_refl_unsup md h1 kind srepr d vis hd,
          writeVal_refl_unsup md h2 kind srepr d vis hd,
          writeByRefl.eq_def, writeByRefl.eq_def],
      by rw [writeByRefl.eq_def, writeByRefl.eq_def]⟩
  | vMap a =>
    by_cases hvis : a ∈ vis
    · refine ⟨?_, ?_⟩
      · by_cases hd : d ≥ md
        · rw [writeVal_depth md h1 _ d vis hd, writeVal_depth md h2 _ d vis hd]
        · rw [writeVal_map_cycle md h1 a d vis hd hvis, writeVal_map_cycle md h2 a d vis hd hvis]
      · rw [writeByRefl_map_cycle md h1 a d vis hvis, writeByRefl_map_cycle md h2 a d vis hvis]
    · rcases hh.find_cases a with ⟨hf1, hf2⟩ | ⟨l, hf1, hf2⟩ | ⟨pv, hf1, hf2⟩ |
        ⟨es1, es2, hf1, hf2, hp, hnd⟩
      · have ho1 : ∀ es, heapFind h1 a ≠ some (.mObj es) := by intro es he; simp [hf1] at he
        have ho2 : ∀ es, heapFind h2 a ≠ some (.mObj es) := by intro es he; simp [hf2] at he
        refine ⟨?_, ?_⟩
        · by_cases hd : d ≥ md
          · rw [writeVal_depth md h1 _ d vis hd, writeVal_depth md h2 _ d vis hd]
          · rw [writeVal_map_other md h1 a d vis hd hvis ho1,
              writeVal_map_other md h2 a d vis hd hvis ho2]
        · rw [writeByRefl_map_other md h1 a d vis hvis ho1,
            writeByRefl_map_other md h2 a d vis hvis ho2]
      · have ho1 : ∀ es, heapFind h1 a ≠ some (.mObj es) := by intro es he; simp [hf1] at he
        have ho2 : ∀ es, heapFind h2 a ≠ some (.mObj es) := by intro es he; simp [hf2] at he
        refine ⟨?_, ?_⟩
        · by_cases hd : d ≥ md
          · rw [writeVal_depth md h1 _ d vis hd, writeVal_depth md h2 _ d vis hd]
          · rw [writeVal_map_other md h1 a d vis hd hvis ho1,
              writeVal_map_other md h2 a d vis hd hvis ho2]
        · rw [writeByRefl_map_other md h1 a d vis hvis ho1,
            writeByRefl_map_other md h2 a d vis hvis ho2]
      · have ho1 : ∀ es, heapFind h1 a ≠ some (.mObj es) := by intro es he; simp [hf1] at he
        have ho2 : ∀ es, heapFind h2 a ≠ some (.mObj es) := by intro es he; simp [hf2] at he
        refine ⟨?_, ?_⟩
        · by_cases hd : d ≥ md
          · rw [writeVal_depth md h1 _ d vis hd, writeVal_depth md h2 _ d vis hd]
          · rw [writeVal_map_other md h1 a d vis hd hvis ho1,
              writeVal_map_other md h2 a d vis hd hvis ho2]
        · rw [writeByRefl_map_other md h1 a d vis hvis ho1,
            writeByRefl_map_other md h2 a d vis hvis ho2]
      · have hlt : countUnvisited h1 (a :: vis) < n :=
          hcnt ▸ countUnvisited_cons_lt h1 a vis (heapFind_mem hf1) hvis
        have hrec : ∀ (ks : List String) (d2 : Nat) (first : Bool),
            renderKeys md h1 es1 ks d2 (a :: vis) first =
            renderKeys md h2 es2 ks d2 (a :: vis) first := by
          intro ks
          induction ks with
          | nil =>
            intro d2 first
            rw [renderKeys_nil, renderKeys_nil]
          | cons k t ihk =>
            intro d2 first
            rw [renderKeys_cons, renderKeys_cons, lookupV_perm hp hnd k,
              (IHn _ hlt _ (a :: vis) rfl md ((lookupV k es2).getD .vNull) rfl d2).1,
              ihk d2 false]
        have hkeys : sortStrs (es1.map Prod.fst) = sortStrs (es2.map Prod.fst) :=
          sortStrs_eq_of_perm (hp.map Prod.fst)
        refine ⟨?_, ?_⟩
        · by_cases hd : d ≥ md
          · rw [writeVal_depth md h1 _ d vis hd, writeVal_depth md h2 _ d vis hd]
          · rw [writeVal_map_found md h1 a d vis es1 hd hvis hf1,
              writeVal_map_found md h2 a d vis es2 hd hvis hf2, hkeys, hrec]
        · rw [writeByRefl_map_found md h1 a d vis es1 hvis hf1,
            writeByRefl_map_found md h2 a d vis es2 hvis hf2, hkeys, hrec]
  | vSlice a =>
    by_cases hvis : a ∈ vis
    · refine ⟨?_, ?_⟩
      · by_cases hd : d ≥ md
        · rw [writeVal_depth md h1 _ d vis hd, writeVal_depth md h2 _ d vis hd]
        · rw [writeVal_slice_cycle md h1 a d vis hd hvis,
            writeVal_slice_cycle md h2 a d vis hd hvis]
      · rw [writeByRefl_slice_cycle md h1 a d vis hvis, writeByRefl_slice_cycle md h2 a d vis hvis]
    · rcases hh.find_cases a with ⟨hf1, hf2⟩ | ⟨l, hf1, hf2⟩ | ⟨pv, hf1, hf2⟩ |
        ⟨es1, es2, hf1, hf2, hp, hnd⟩
      · have ho1 : ∀ xs, heapFind h1 a ≠ some (.sObj xs) := by intro xs he; simp [hf1] at he
        have ho2 : ∀ xs, heapFind h2 a ≠ some (.sObj xs) := by intro xs he; simp [hf2] at he
        refine ⟨?_, ?_⟩
        · by_cases hd : d ≥ md
          · rw [writeVal_depth md h1 _ d vis hd, writeVal_depth md h2 _ d vis hd]
          · rw [writeVal_slice_other md h1 a d vis hd hvis ho1,
              writeVal_slice_other md h2 a d vis hd hvis ho2]
        · rw [writeByRefl_slice_other md h1 a d vis hvis ho1,
            writeByRefl_slice_other md h2 a d vis hvis ho2]
      · have hlt : countUnvisited h1 (a :: vis) < n :=
          hcnt ▸ countUnvisited_cons_lt h1 a vis (heapFind_mem hf1) hvis
        have hrec : ∀ (xs : List Val) (d2 : Nat) (first : Bool),
            renderElems md h1 xs d2 (a :: vis) first =
            renderElems md h2 xs d2 (a :: vis) first := by
          intro xs
          induction xs with
          | nil =>
            intro d2 first
            rw [renderElems_nil, renderElems_nil]
          | cons x t ihx =>
            intro d2 first
            rw [renderElems_cons, renderElems_cons,
              (IHn _ hlt _ (a :: vis) rfl md x rfl d2).1, ihx d2 false]
        refine ⟨?_, ?_⟩
        · by_cases hd : d ≥ md
          · rw [writeVal_depth md h1 _ d vis hd, writeVal_depth md h2 _ d vis hd]
          · rw [writeVal_slice_found md h1 a d vis l hd hvis hf1,
              writeVal_slice_found md h2 a d vis l hd hvis hf2, hrec]
        · rw [writeByRefl_slice_found md h1 a d vis l hvis hf1,
            writeByRefl_slice_found md h2 a d vis l hvis hf2, hrec]
      · have ho1 : ∀ xs, heapFind h1 a ≠ some (.sObj xs) := by intro xs he; simp [hf1] at he
        have ho2 : ∀ xs, heapFind h2 a ≠ some (.sObj xs) := by intro xs he; simp [hf2] at he
        refine ⟨?_, ?_⟩
        · by_cases hd : d ≥ md
          · rw [writeVal_depth md h1 _ d vis hd, writeVal_depth md h2 _ d vis hd]
          · rw [writeVal_slice_other md h1 a d vis hd hvis ho1,
              writeVal_slice_other md h2 a d vis hd hvis ho2]
        · rw [writeByRefl_slice_other md h1 a d vis hvis ho1,
            writeByRefl_slice_other md h2 a d vis hvis ho2]
      · have ho1 : ∀ xs, heapFind h1 a ≠ some (.sObj xs) := by intro xs he; simp [hf1] at he
        have ho2 : ∀ xs, heapFind h2 a ≠ some (.sObj xs) := by intro xs he; simp [hf2] at he
        refine ⟨?_, ?_⟩
        · by_cases hd : d ≥ md
          · rw [writeVal_depth md h1 _ d vis hd, writeVal_depth md h2 _ d vis hd]
          · rw [writeVal_slice_other md h1 a d vis hd hvis ho1,
              writeVal_slice_other md h2 a d vis hd hvis ho2]
        · rw [writeByRefl_slice_other md h1 a d vis hvis ho1,
            writeByRefl_slice_other md h2 a d vis hvis ho2]
  | vPtr a =>
    cases a with
    | none =>
      refine ⟨?_, ?_⟩
      · by_cases hd : d ≥ md
        · rw [writeVal_depth md h1 _ d vis hd, writeVal_depth md h2 _ d vis hd]
        · rw [writeVal_refl_ptr md h1 none d vis hd, writeVal_refl_ptr md h2 none d vis hd,
            writeByRefl.eq_def, writeByRefl.eq_def]
      · rw [writeByRefl.eq_def, writeByRefl.eq_def]
    | some a =>
      have hR : writeByRefl md h1 (Val.vPtr (some a)) d vis =
          writeByRefl md h2 (Val.vPtr (some a)) d vis := by
        by_cases hvis : a ∈ vis
        · rw [writeByRefl_ptr_cycle md h1 a d vis hvis, writeByRefl_ptr_cycle md h2 a d vis hvis]
        · rcases hh.find_cases a with ⟨hf1, hf2⟩ | ⟨l, hf1, hf2⟩ | ⟨pv, hf1, hf2⟩ |
            ⟨es1, es2, hf1, hf2, hp, hnd⟩
          · have ho1 : ∀ pv, heapFind h1 a ≠ some (.pObj pv) := by intro pv he; simp [hf1] at he
            have ho2 : ∀ pv, heapFind h2 a ≠ some (.pObj pv) := by intro pv he; simp [hf2] at he
            rw [writeByRefl_ptr_other md h1 a d vis hvis ho1,
              writeByRefl_ptr_other md h2 a d vis hvis ho2]
          · have ho1 : ∀ pv, heapFind h1 a ≠ some (.pObj pv) := by intro pv he; simp [hf1] at he
            have ho2 : ∀ pv, heapFind h2 a ≠ some (.pObj pv) := by intro pv he; simp [hf2] at he
            rw [writeByRefl_ptr_other md h1 a d vis hvis ho1,
              writeByRefl_ptr_other md h2 a d vis hvis ho2]
          · have hlt : countUnvisited h1 (a :: vis) < n :=
              hcnt ▸ countUnvisited_cons_lt h1 a vis (heapFind_mem hf1) hvis
            rw [writeByRefl_ptr_found md h1 a d vis pv hvis hf1,
              writeByRefl_ptr_found md h2 a d vis pv hvis hf2]
            exact (IHn _ hlt _ (a :: vis) rfl md pv rfl (d + 1)).2
          · have ho1 : ∀ pv, heapFind h1 a ≠ some (.pObj pv) := by intro pv he; simp [hf1] at he
            have ho2 : ∀ pv, heapFind h2 a ≠ some (.pObj pv) := by intro pv he; simp [hf2] at he
            rw [writeByRefl_ptr_other md h1 a d vis hvis ho1,
              writeByRefl_ptr_other md h2 a d vis hvis ho2]
      refine ⟨?_, hR⟩
      by_cases hd : d ≥ md
      · rw [writeVal_depth md h1 _ d vis hd, writeVal_depth md h2 _ d vis hd]
      · rw [writeVal_refl_ptr md h1 (some a) d vis hd, writeVal_refl_ptr md h2 (some a) d vis hd,
          hR]
  | vStruct fs =>
    have hm : frank fs + 1 = m := by rw [← hrank]; simp [vrank]
    have hrec : ∀ (ps : List (String × Val)), prank ps ≤ frank fs →
        ∀ (d2 : Nat) (first : Bool),
        renderPairsR md h1 ps d2 vis first = renderPairsR md h2 ps d2 vis first := by
      intro ps
      induction ps with
      | nil =>
        intro hle d2 first
        rw [renderPairsR_nil, renderPairsR_nil]
      | cons p t ihp =>
        obtain ⟨k, v2⟩ := p
        intro hle d2 first
        have hle2 : vrank v2 + prank t + 2 ≤ frank fs := by
          simpa [prank] using hle
        have hvr : vrank v2 < m := by omega
        rw [renderPairsR_cons, renderPairsR_cons,
          (IHm _ hvr vis hcnt md v2 rfl d2).1,
          ihp (by omega) d2 false]
    have hR : writeByRefl md h1 (Val.vStruct fs) d vis =
        writeByRefl md h2 (Val.vStruct fs) d vis := by
      rw [writeByRefl_struct, writeByRefl_struct,
        hrec (resolveClean fs) (prank_resolveClean_le fs) (d + 1) true]
    refine ⟨?_, hR⟩
    by_cases hd : d ≥ md
    · rw [writeVal_depth md h1 _ d vis hd, writeVal_depth md h2 _ d vis hd]
    · rw [writeVal_refl_struct md h1 fs d vis hd, writeVal_refl_struct md h2 fs d vis hd, hR]

lemma renderFieldsTop_congr {h1 h2 : Heap} (hh : HeapPerm h1 h2)
    {f1 f2 : List (String × Val)} (hp : f1.Perm f2) (hnd : (f1.map Prod.fst).Nodup)
    (md : Nat) : ∀ ks : List String,
    renderFieldsTop md h1 f1 ks = renderFieldsTop md h2 f2 ks := by
  intro ks
  induction ks with
  | nil => rfl
  | cons k t ih =>
    rw [renderFieldsTop, renderFieldsTop, lookupV_perm hp hnd k,
      (writeVal_congr hh (countUnvisited h1 []) _ [] rfl md _ rfl 0).1, ih]

lemma textVal_depth (md : Nat) (h : Heap) (v : Val) (d : Nat) (vis : List Nat)
    (hd : d ≥ md) : textVal md h v d vis = "<max_depth>" := by
  rw [textVal.eq_def]
  simp [hd]

lemma textVal_map_cycle (md : Nat) (h : Heap) (a d : Nat) (vis : List Nat)
    (hd : ¬ d ≥ md) (hvis : a ∈ vis) :
    textVal md h (Val.vMap a) d vis = "<cycle>" := by
  rw [textVal.eq_def]
  simp [hd, hvis]

lemma textVal_map_found (md : Nat) (h : Heap) (a d : Nat) (vis : List Nat)
    (es : List (String × Val)) (hd : ¬ d ≥ md) (hvis : ¬ a ∈ vis)
    (hf : heapFind h a = some (.mObj es)) :
    textVal md h (Val.vMap a) d vis =
      "\x7b" ++ textKeys md h es (sortStrs (es.map Prod.fst)) (d + 1) (a :: vis) true ++ "\x7d" := by
  rw [textVal.eq_def]
  simp only [ge_iff_le, hd, if_false, dif_neg hvis]
  split
  · rename_i es2 hf2
    rw [hf] at hf2
    cases hf2
    rfl
  · rename_i l hf2
    simp [hf] at hf2
  · rename_i pv hf2
    simp [hf] at hf2
  · rename_i hf2
    simp [hf] at hf2

lemma textVal_map_other (md : Nat) (h : Heap) (a d : Nat) (vis : List Nat)
    (hd : ¬ d ≥ md) (hvis : ¬ a ∈ vis)
    (hother : ∀ es, heapFind h a ≠ some (.mObj es)) :
    textVal md h (Val.vMap a) d vis = "null" := by
  rw [textVal.eq_def]
  simp only [ge_iff_le, hd, if_false, dif_neg hvis]
  split
  · rename_i es2 hf2
    exact absurd hf2 (hother es2)
  · rfl
  · rfl
  · rfl

lemma textVal_slice_cycle (md : Nat) (h : Heap) (a d : Nat) (vis : List Nat)
    (hd : ¬ d ≥ md) (hvis : a ∈ vis) :
    textVal md h (Val.vSlice a) d vis = "<cycle>" := by
  rw [textVal.eq_def]
  simp [hd, hvis]

lemma textVal_slice_found (md : Nat) (h : Heap) (a d : Nat) (vis : List Nat)
    (xs : List Val) (hd : ¬ d ≥ md) (hvis : ¬ a ∈ vis)
    (hf : heapFind h a = some (.sObj xs)) :
    textVal md h (Val.vSlice a) d vis =
      "[" ++ textElems md h xs (d + 1) (a :: vis) true ++ "]" := by
  rw [textVal.eq_def]
  simp only [ge_iff_le, hd, if_false, dif_neg hvis]
  split
  · rename_i xs2 hf2
    rw [hf] at hf2
    cases hf2
    rfl
  · rename_i l hf2
    simp [hf] at hf2
  · rename_i pv hf2
    simp [hf] at hf2
  · rename_i hf2
    simp [hf] at hf2

lemma textVal_slice_other (md : Nat) (h : Heap) (a d : Nat) (vis : List Nat)
    (hd : ¬ d ≥ md) (hvis : ¬ a ∈ vis)
    (hother : ∀ xs, heapFind h a ≠ some (.sObj xs)) :
    textVal md h (Val.vSlice a) d vis = "null" := by
  rw [textVal.eq_def]
  simp only [ge_iff_le, hd, if_false, dif_neg hvis]
  split
  · rename_i xs2 hf2
    exact absurd hf2 (hother xs2)
  · rfl
  · rfl
  · rfl

lemma textVal_ptr_cycle (md : Nat) (h : Heap) (a d : Nat) (vis : List Nat)
    (hd : ¬ d ≥ md) (hvis : a ∈ vis) :
    textVal md h (Val.vPtr (some a)) d vis = "<cycle>" := by
  rw [textVal.eq_def]
  simp [hd, hvis]

lemma textVal_ptr_found (md : Nat) (h : Heap) (a d : Nat) (vis : List Nat)
    (pv : Val) (hd : ¬ d ≥ md) (hvis : ¬ a ∈ vis)
    (hf : heapFind h a = some (.pObj pv)) :
    textVal md h (Val.vPtr (some a)) d vis = textVal md h pv (d + 1) (a :: vis) := by
  rw [textVal.eq_def]
  simp only [ge_iff_le, hd, if_false, dif_neg hvis]
  split
  · rename_i pv2 hf2
    rw [hf] at hf2
    cases hf2
    rfl
  · rename_i l hf2
    simp [hf] at hf2
  · rename_i l hf2
    simp [hf] at hf2
  · rename_i hf2
    simp [hf] at hf2

lemma textVal_ptr_other (md : Nat) (h : Heap) (a d : Nat) (vis : List Nat)
    (hd : ¬ d ≥ md) (hvis : ¬ a ∈ vis)
    (hother : ∀ pv, heapFind h a ≠ some (.pObj pv)) :
    textVal md h (Val.vPtr (some a)) d vis = "null" := by
  rw [textVal.eq_def]
  simp only [ge_iff_le, hd, if_false, dif_neg hvis]
  split
  · rename_i pv2 hf2
    exact absurd hf2 (hother pv2)
  · rfl
  · rfl
  · rfl

lemma textVal_struct (md : Nat) (h : Heap) (fs : List GoField) (d : Nat)
    (vis : List Nat) (hd : ¬ d ≥ md) :
    textVal md h (Val.vStruct fs) d vis =
      "\x7b" ++ textPairs md h (resolveClean fs) (d + 1) vis true ++ "\x7d" := by
  rw [textVal.eq_def]
  simp [hd]

lemma textKeys_nil (md : Nat) (h : Heap) (es : List (String × Val)) (d : Nat)
    (vis : List Nat) (first : Bool) : textKeys md h es [] d vis first = "" := by
  rw [textKeys.eq_def]

lemma textKeys_cons (md : Nat) (h : Heap) (es : List (String × Val)) (k : String)
    (t : List String) (d : Nat) (vis : List Nat) (first : Bool) :
    textKeys md h es (k :: t) d vis first =
      (if first then "" else ", ") ++ k ++ ": " ++
        textVal md h ((lookupV k es).getD .vNull) d vis ++
        textKeys md h es t d vis false := by
  rw [textKeys.eq_def]

lemma textElems_nil (md : Nat) (h : Heap) (d : Nat) (vis : List Nat) (first : Bool) :
    textElems md h [] d vis first = "" := by
  rw [textElems.eq_def]

lemma textElems_cons (md : Nat) (h : Heap) (x : Val) (t : List Val) (d : Nat)
    (vis : List Nat) (first : Bool) :
    textElems md h (x :: t) d vis first =
      (if first then "" else ", ") ++ textVal md h x d vis ++
        textElems md h t d vis false := by
  rw [textElems.eq_def]

lemma textPairs_nil (md : Nat) (h : Heap) (d : Nat) (vis : List Nat) (first : Bool) :
    textPairs md h [] d vis first = "" := by
  rw [textPairs.eq_def]

lemma textPairs_cons (md : Nat) (h : Heap) (k : String) (v : Val)
    (t : List (String × Val)) (d : Nat) (vis : List Nat) (first : Bool) :
    textPairs md h ((k, v) :: t) d vis first =
      (if first then "" else ", ") ++ k ++ ": " ++
        textVal md h v d vis ++ textPairs md h t d vis false := by
  rw [textPairs.eq_def]

lemma textVal_congr {h1 h2 : Heap} (hh : HeapPerm h1 h2) :
    ∀ (n m : Nat) (vis : List Nat), countUnvisited h1 vis = n →
    ∀ (md : Nat) (v : Val), vrank v = m → ∀ (d : Nat),
      textVal md h1 v d vis = textVal md h2 v d vis := by
  intro n
  induction n using Nat.strong_induction_on with
  | _ n IHn =>
  intro m
  induction m using Nat.strong_induction_on with
  | _ m IHm =>
  intro vis hcnt md v hrank d
  by_cases hd : d ≥ md
  · rw [textVal_depth md h1 v d vis hd, textVal_depth md h2 v d vis hd]
  · cases v with
    | vNull => rw [textVal.eq_def, textVal.eq_def]
    | vBool b => rw [textVal.eq_def, textVal.eq_def]
    | vInt n2 => rw [textVal.eq_def, textVal.eq_def]
    | vUInt n2 => rw [textVal.eq_def, textVal.eq_def]
    | vFloat f => rw [textVal.eq_def, textVal.eq_def]
    | vStr s => rw [textVal.eq_def, textVal.eq_def]
    | vDur s => rw [textVal.eq_def, textVal.eq_def]
    | vTime s => rw [textVal.eq_def, textVal.eq_def]
    | vErr s => rw [textVal.eq_def, textVal.eq_def]
    | vStringer s => rw [textVal.eq_def, textVal.eq_def]
    | vBytes a bs => rw [textVal.eq_def, textVal.eq_def]
    | vUnsupported kind srepr => rw [textVal.eq_def, textVal.eq_def]
    | vMap a =>
      by_cases hvis : a ∈ vis
      · rw [textVal_map_cycle md h1 a d vis hd hvis, textVal_map_cycle md h2 a d vis hd hvis]
      · rcases hh.find_cases a with ⟨hf1, hf2⟩ | ⟨l, hf1, hf2⟩ | ⟨pv, hf1, hf2⟩ |
          ⟨es1, es2, hf1, hf2, hp, hnd⟩
        · have ho1 : ∀ es, heapFind h1 a ≠ some (.mObj es) := by intro es he; simp [hf1] at he
          have ho2 : ∀ es, heapFind h2 a ≠ some (.mObj es) := by intro es he; simp [hf2] at he
          rw [textVal_map_other md h1 a d vis hd hvis ho1,
            textVal_map_other md h2 a d vis hd hvis ho2]
        · have ho1 : ∀ es, heapFind h1 a ≠ some (.mObj es) := by intro es he; simp [hf1] at he
          have ho2 : ∀ es, heapFind h2 a ≠ some (.mObj es) := by intro es he; simp [hf2] at he
          rw [textVal_map_other md h1 a d vis hd hvis ho1,
            textVal_map_other md h2 a d vis hd hvis ho2]
        · have ho1 : ∀ es, heapFind h1 a ≠ some (.mObj es) := by intro es he; simp [hf1] at he
          have ho2 : ∀ es, heapFind h2 a ≠ some (.mObj es) := by intro es he; simp [hf2] at he
          rw [textVal_map_other md h1 a d vis hd hvis ho1,
            textVal_map_other md h2 a d vis hd hvis ho2]
        · have hlt : countUnvisited h1 (a :: vis) < n :=
            hcnt ▸ countUnvisited_cons_lt h1 a vis (heapFind_mem hf1) hvis
          have hrec : ∀ (ks : List String) (d2 : Nat) (first : Bool),
              textKeys md h1 es1 ks d2 (a :: vis) first =
              textKeys md h2 es2 ks d2 (a :: vis) first := by
            intro ks
            induction ks with
            | nil =>
              intro d2 first
              rw [textKeys_nil, textKeys_nil]
            | cons k t ihk =>
              intro d2 first
              rw [textKeys_cons, textKeys_cons, lookupV_perm hp hnd k,
                IHn _ hlt _ (a :: vis) rfl md ((lookupV k es2).getD .vNull) rfl d2,
                ihk d2 false]
          rw [textVal_map_found md h1 a d vis es1 hd hvis hf1,
            textVal_map_found md h2 a d vis es2 hd hvis hf2,
            sortStrs_eq_of_perm (hp.map Prod.fst), hrec]
    | vSlice a =>
      by_cases hvis : a ∈ vis
      · rw [textVal_slice_cycle md h1 a d vis hd hvis, textVal_slice_cycle md h2 a d vis hd hvis]
      · rcases hh.find_cases a with ⟨hf1, hf2⟩ | ⟨l, hf1, hf2⟩ | ⟨pv, hf1, hf2⟩ |
          ⟨es1, es2, hf1, hf2, hp, hnd⟩
        · have ho1 : ∀ xs, heapFind h1 a ≠ some (.sObj xs) := by intro xs he; simp [hf1] at he
          have ho2 : ∀ xs, heapFind h2 a ≠ some (.sObj xs) := by intro xs he; simp [hf2] at he
          rw [textVal_slice_other md h1 a d vis hd hvis ho1,
            textVal_slice_other md h2 a d vis hd hvis ho2]
        · have hlt : countUnvisited h1 (a :: vis) < n :=
            hcnt ▸ countUnvisited_cons_lt h1 a vis (heapFind_mem hf1) hvis
          have hrec : ∀ (xs : List Val) (d2 : Nat) (first : Bool),
              textElems md h1 xs d2 (a :: vis) first =
              textElems md h2 xs d2 (a :: vis) first := by
            intro xs
            induction xs with
            | nil =>
              intro d2 first
              rw [textElems_nil, textElems_nil]
            | cons x t ihx =>
              intro d2 first
              rw [textElems_cons, textElems_cons,
                IHn _ hlt _ (a :: vis) rfl md x rfl d2, ihx d2 false]
          rw [textVal_slice_found md h1 a d vis l hd hvis hf1,
            textVal_slice_found md h2 a d vis l hd hvis hf2, hrec]
        · have ho1 : ∀ xs, heapFind h1 a ≠ some (.sObj xs) := by intro xs he; simp [hf1] at he
          have ho2 : ∀ xs, heapFind h2 a ≠ some (.sObj xs) := by intro xs he; simp [hf2] at he
          rw [textVal_slice_other md h1 a d vis hd hvis ho1,
            textVal_slice_other md h2 a d vis hd hvis ho2]
        · have ho1 : ∀ xs, heapFind h1 a ≠ some (.sObj xs) := by intro xs he; simp [hf1] at he
          have ho2 : ∀ xs, heapFind h2 a ≠ some (.sObj xs) := by intro xs he; simp [hf2] at he
          rw [textVal_slice_other md h1 a d vis hd hvis ho1,
            textVal_slice_other md h2 a d vis hd hvis ho2]
    | vPtr a =>
      cases a with
      | none => rw [textVal.eq_def, textVal.eq_def]
      | some a =>
        by_cases hvis : a ∈ vis
        · rw [textVal_ptr_cycle md h1 a d vis hd hvis, textVal_ptr_cycle md h2 a d vis hd hvis]
        · rcases hh.find_cases a with ⟨hf1, hf2⟩ | ⟨l, hf1, hf2⟩ | ⟨pv, hf1, hf2⟩ |
            ⟨es1, es2, hf1, hf2, hp, hnd⟩
          · have ho1 : ∀ pv, heapFind h1 a ≠ some (.pObj pv) := by intro pv he; simp [hf1] at he
            have ho2 : ∀ pv, heapFind h2 a ≠ some (.pObj pv) := by intro pv he; simp [hf2] at he
            rw [textVal_ptr_other md h1 a d vis hd hvis ho1,
              textVal_ptr_other md h2 a d vis hd hvis ho2]
          · have ho1 : ∀ pv, heapFind h1 a ≠ some (.pObj pv) := by intro pv he; simp [hf1] at he
            have ho2 : ∀ pv, heapFind h2 a ≠ some (.pObj pv) := by intro pv he; simp [hf2] at he
            rw [textVal_ptr_other md h1 a d vis hd hvis ho1,
              textVal_ptr_other md h2 a d vis hd hvis ho2]
          · have hlt : countUnvisited h1 (a :: vis) < n :=
              hcnt ▸ countUnvisited_cons_lt h1 a vis (heapFind_mem hf1) hvis
            rw [textVal_ptr_found md h1 a d vis pv hd hvis hf1,
              textVal_ptr_found md h2 a d vis pv hd hvis hf2]
            exact IHn _ hlt _ (a :: vis) rfl md pv rfl (d + 1)
          · have ho1 : ∀ pv, heapFind h1 a ≠ some (.pObj pv) := by intro pv he; simp [hf1] at he
            have ho2 : ∀ pv, heapFind h2 a ≠ some (.pObj pv) := by intro pv he; simp [hf2] at he
            rw [textVal_ptr_other md h1 a d vis hd hvis ho1,
              textVal_ptr_other md h2 a d vis hd hvis ho2]
    | vStruct fs =>
      have hm : frank fs + 1 = m := by rw [← hrank]; simp [vrank]
      have hrec : ∀ (ps : List (String × Val)), prank ps ≤ frank fs →
          ∀ (d2 : Nat) (first : Bool),
          textPairs md h1 ps d2 vis first = textPairs md h2 ps d2 vis first := by
        intro ps
        induction ps with
        | nil =>
          intro hle d2 first
          rw [textPairs_nil, textPairs_nil]
        | cons p t ihp =>
          obtain ⟨k, v2⟩ := p
          intro hle d2 first
          have hle2 : vrank v2 + prank t + 2 ≤ frank fs := by
            simpa [prank] using hle
          have hvr : vrank v2 < m := by omega
          rw [textPairs_cons, textPairs_cons,
            IHm _ hvr vis hcnt md v2 rfl d2, ihp (by omega) d2 false]
      rw [textVal_struct md h1 fs d vis hd, textVal_struct md h2 fs d vis hd,
        hrec (resolveClean fs) (prank_resolveClean_le fs) (d + 1) true]

lemma textFieldsTop_congr {h1 h2 : Heap} (hh : HeapPerm h1 h2)
    {f1 f2 : List (String × Val)} (hp : f1.Perm f2) (hnd : (f1.map Prod.fst).Nodup)
    (md : Nat) : ∀ ks : List String,
    textFieldsTop md h1 f1 ks = textFieldsTop md h2 f2 ks := by
  intro ks
  induction ks with
  | nil => rfl
  | cons k t ih =>
    rw [textFieldsTop, textFieldsTop, lookupV_perm hp hnd k,
      textVal_congr hh (countUnvisited h1 []) _ [] rfl md _ rfl 0, ih]

lemma routeStepInv {β γ : Type} {fmt : β → γ} {fl : Bool} {s s' : RouteSys β γ}
    (hs : RStep fmt fl s s')
    (ih1 : s.written ++ s.queue.map fmt = s.accepted.map fmt)
    (ih2 : s.alive = false → s.queue = [] ∧ s.closed = true)
    (ih3 : s.flushes = (if s.alive then 0 else if fl then 1 else 0)) :
    s'.written ++ s'.queue.map fmt = s'.accepted.map fmt ∧
    (s'.alive = false → s'.queue = [] ∧ s'.closed = true) ∧
    s'.flushes = (if s'.alive then 0 else if fl then 1 else 0) := by
  cases hs with
  | accept r hcl hroom =>
    refine ⟨?_, ?_, ?_⟩
    · show s.written ++ (s.queue ++ [r]).map fmt = (s.accepted ++ [r]).map fmt
      simp only [List.map_append]
      rw [← List.append_assoc, ih1]
    · intro hdead
      have hc := (ih2 hdead).2
      rw [hcl] at hc
      cases hc
    · exact ih3
  | consume r t hq hal =>
    refine ⟨?_, ?_, ?_⟩
    · show s.written ++ [fmt r] ++ t.map fmt = s.accepted.map fmt
      rw [List.append_assoc]
      have he : [fmt r] ++ t.map fmt = (r :: t).map fmt := rfl
      rw [he, ← hq]
      exact ih1
    · intro hdead
      have hd2 : s.alive = false := hdead
      rw [hal] at hd2
      cases hd2
    · show s.flushes = (if s.alive then 0 else if fl then 1 else 0)
      exact ih3
  | closeRoute hcl =>
    refine ⟨ih1, ?_, ih3⟩
    intro hdead
    exact ⟨(ih2 hdead).1, rfl⟩
  | finish hcl hq hal =>
    refine ⟨ih1, fun _ => ⟨hq, hcl⟩, ?_⟩
    have h0 : s.flushes = 0 := by
      rw [ih3, hal]
      simp
    show s.flushes + (if fl then 1 else 0) = (if false then 0 else if fl then 1 else 0)
    rw [h0]
    simp

lemma routeInv {β γ : Type} (fmt : β → γ) (fl : Bool) {s : RouteSys β γ}
    (hr : RReach fmt fl s) :
    s.written ++ s.queue.map fmt = s.accepted.map fmt ∧
    (s.alive = false → s.queue = [] ∧ s.closed = true) ∧
    s.flushes = (if s.alive then 0 else if fl then 1 else 0) := by
  induction hr with
  | init => simp [initSys]
  | step hr hs ih =>
    exact routeStepInv hs ih.1 ih.2.1 ih.2.2

/-! ## Claim theorems -/

set_option maxRecDepth 16384

/-- C1: for every record accepted by Enqueue (the closed flag not set at send
time), once Logger.Close has returned (the channel closed and the consumer
joined, so alive is false), the sink received exactly the formatted bytes of
the accepted records, one write per accepted record in channel order, and
Flush ran exactly once when the sink supports it: in the transition system of
RouteProcessor.Start, drainQueue and Close, every final state of a reachable
trace satisfies written = map fmt accepted. -/
theorem routeDelivery_exactly_once {β γ : Type} (fmt : β → γ) (fl : Bool)
    (s : RouteSys β γ) (hr : RReach fmt fl s) (hdone : s.alive = false) :
    s.written = s.accepted.map fmt ∧ s.flushes = (if fl then 1 else 0) := by
  obtain ⟨h1, h2, h3⟩ := routeInv fmt fl hr
  obtain ⟨hq, hcl⟩ := h2 hdone
  constructor
  · rw [← h1, hq]
    simp
  · rw [h3, hdone]
    simp

/-- C1 witness: a concrete trace accepts the record 5, closes, drains and
finishes; the final state has written exactly the one formatted record and
one flush. -/
theorem routeDelivery_exactly_once_witness :
    (⟨[], true, false, [5], [6], 1⟩ : RouteSys Nat Nat).written =
      List.map Nat.succ (⟨[], true, false, [5], [6], 1⟩ : RouteSys Nat Nat).accepted ∧
    (⟨[], true, false, [5], [6], 1⟩ : RouteSys Nat Nat).flushes = (if true then 1 else 0) := by
  have h0 : RReach (β := Nat) (γ := Nat) Nat.succ true initSys := RReach.init
  have h1 : RReach Nat.succ true
      ({ queue := [5], closed := false, alive := true, accepted := [5], written := [],
         flushes := 0 } : RouteSys Nat Nat) :=
    RReach.step h0 (RStep.accept initSys 5 rfl (by decide))
  have h2 : RReach Nat.succ true
      ({ queue := [5], closed := true, alive := true, accepted := [5], written := [],
         flushes := 0 } : RouteSys Nat Nat) :=
    RReach.step h1 (RStep.closeRoute _ rfl)
  have h3 : RReach Nat.succ true
      ({ queue := [], closed := true, alive := true, accepted := [5], written := [6],
         flushes := 0 } : RouteSys Nat Nat) :=
    RReach.step h2 (RStep.consume _ 5 [] rfl rfl)
  have h4 : RReach Nat.succ true
      ({ queue := [], closed := true, alive := false, accepted := [5], written := [6],
         flushes := 1 } : RouteSys Nat Nat) :=
    RReach.step h3 (RStep.finish _ rfl rfl rfl)
  exact routeDelivery_exactly_once Nat.succ true _ h4 rfl

/-- C2 counterexample: the legacy Format (the range loop over the field map,
src/loggo/core/formatter/json.go lines 64 to 69) emits the fields in map
iteration order: the same field map iterated in two orders gives two
different byte strings, and neither has the keys sorted. -/
theorem legacyFormat_order_dependent :
    formatLegacy recBA =
      "\x7b\"level\":\"INFO\",\"ts\":\"2025-08-14T15:30:00Z\",\"msg\":\"hello\",\"b\":1,\"a\":2\x7d" ∧
    formatLegacy recAB =
      "\x7b\"level\":\"INFO\",\"ts\":\"2025-08-14T15:30:00Z\",\"msg\":\"hello\",\"a\":2,\"b\":1\x7d" ∧
    formatLegacy recBA ≠ formatLegacy recAB := by
  refine ⟨by decide, by decide, by decide⟩

/-- C2 as amended: the current JSON formatter (pooled variant and
src/unnamed/part_000) and the text formatter are each byte-identical across
any map iteration order, at the record level and at every nesting level of
the heap, and the key order both emit at every level, sortStrs of the keys,
is a sorted permutation of those keys.  The legacy JSON variant cited
alongside does not sort (see the counterexample). -/
theorem format_sorted_and_order_independent :
    (∀ (md : Nat) (h1 h2 : Heap) (r1 r2 : LogRecord),
        HeapPerm h1 h2 → r1.level = r2.level → r1.ts = r2.ts → r1.msg = r2.msg →
        r1.fields.Perm r2.fields → (r1.fields.map Prod.fst).Nodup →
        formatJson md h1 r1 = formatJson md h2 r2) ∧
    (∀ (md : Nat) (h1 h2 : Heap) (r1 r2 : LogRecord),
        HeapPerm h1 h2 → r1.level = r2.level → r1.ts = r2.ts → r1.msg = r2.msg →
        r1.fields.Perm r2.fields → (r1.fields.map Prod.fst).Nodup →
        formatText md h1 r1 = formatText md h2 r2) ∧
    (∀ l : List String, (sortStrs l).Sorted (fun a b => strLe a b = true) ∧
        (sortStrs l).Perm l) := by
  refine ⟨?_, ?_, ?_⟩
  · intro md h1 h2 r1 r2 hh hl ht hm hp hnd
    unfold formatJson
    rw [hl, ht, hm, sortStrs_eq_of_perm (hp.map Prod.fst),
      renderFieldsTop_congr hh hp hnd md]
  · intro md h1 h2 r1 r2 hh hl ht hm hp hnd
    have he : r1.fields.isEmpty = r2.fields.isEmpty := by
      have hlen := hp.length_eq
      cases hx : r1.fields <;> cases hy : r2.fields <;> rw [hx, hy] at hlen <;> simp_all
    unfold formatText
    rw [hl, ht, hm, he, sortStrs_eq_of_perm (hp.map Prod.fst),
      textFieldsTop_congr hh hp hnd md]
  · intro l
    exact ⟨sortStrs_sorted l, sortStrs_perm l⟩

/-- C2 witness: the two iteration orders of the same two-field map format
identically under the current JSON formatter and under the text formatter. -/
theorem format_order_independent_witness :
    formatJson 10 [] recBA = formatJson 10 [] recAB ∧
    formatText 10 [] recBA = formatText 10 [] recAB :=
  ⟨format_sorted_and_order_independent.1 10 [] [] recBA recAB HeapPerm.nil rfl rfl rfl
      (List.Perm.swap ("a", Val.vInt 2) ("b", Val.vInt 1) []) (by decide),
    format_sorted_and_order_independent.2.1 10 [] [] recBA recAB HeapPerm.nil rfl rfl rfl
      (List.Perm.swap ("a", Val.vInt 2) ("b", Val.vInt 1) []) (by decide)⟩

/-- C3: the pooled reflect.Map arm is a code bug: getKeysSlice returns a
length-zero slice, the fill loop assigns by index, and any string-keyed map
with at least one key reaching this path panics with index out of range, so
Format terminates abnormally instead of never failing. -/
theorem pooledMapKeysSlice_panics :
    getKeysSlice 1 = [] ∧ fillKeys ["a"] = none ∧
    writeMapReflectPooled 10 [] [("a", Val.vInt 1)] 0 [] = none :=
  ⟨rfl, rfl, rfl⟩

/-- C4: the cycle guard: a reference (a map, a slice, or a non-nil pointer,
the channel through which a cycle reaches a struct or array aggregate) whose
identity is already on the traversal path renders as the cycle sentinel
without recursing (first conjunct, for every heap, depth below the bound,
and path); the concrete cyclic map m with m self m renders, as the field x,
the region x maps to (self maps to the cycle sentinel); the identity is
released on the normal exit path, so the diamond (one shared map cell
referenced twice from a slice) renders fully both times; and the concrete
aggregate cycle t.Next = &t renders the struct once with the cycle sentinel
in place of the pointer. -/
theorem writeVal_cycle_guard :
    (∀ (md : Nat) (h : Heap) (a d : Nat) (vis : List Nat), d < md → a ∈ vis →
        writeVal md h (Val.vMap a) d vis = writeJSONString "<cycle>" ∧
        writeVal md h (Val.vSlice a) d vis = writeJSONString "<cycle>" ∧
        writeVal md h (Val.vPtr (some a)) d vis = writeJSONString "<cycle>") ∧
    formatJson 10 cycleHeap cycleRec =
      "\x7b\"level\":\"INFO\",\"ts\":\"2025-08-14T15:30:00Z\",\"msg\":\"hello\",\"x\":\x7b\"self\":\"<cycle>\"\x7d\x7d" ∧
    writeVal 10 diamondHeap (Val.vSlice 8) 0 [] =
      "[\x7b\"k\":\"v\"\x7d,\x7b\"k\":\"v\"\x7d]" ∧
    writeVal 10 ptrCycleHeap (Val.vPtr (some 1)) 0 [] =
      "\x7b\"Next\":\"<cycle>\"\x7d" := by
  refine ⟨?_, ?_, ?_, ?_⟩
  · intro md h a d vis hd hvis
    have hd2 : ¬ d ≥ md := Nat.not_le.mpr hd
    refine ⟨writeVal_map_cycle md h a d vis hd2 hvis,
      writeVal_slice_cycle md h a d vis hd2 hvis, ?_⟩
    rw [writeVal_refl_ptr md h (some a) d vis hd2, writeByRefl_ptr_cycle md h a d vis hvis]
  · simp [formatJson, cycleRec, cycleHeap, renderFieldsTop, writeVal, renderKeys,
      sortStrs, sortInsert, lookupV, heapFind]
    decide
  · simp [diamondHeap, writeVal, renderKeys, renderElems, sortStrs, sortInsert,
      lookupV, heapFind]
    decide
  · simp [ptrCycleHeap, writeVal, writeByRefl, renderPairsR, resolveClean, structKeyClean,
      sortPairs, sortPairsInsert, heapFind]
    decide

/-- C4 witness: the three cycle arms at a concrete marked address. -/
theorem writeVal_cycle_guard_witness :
    (0 : Nat) < 10 ∧ (3 : Nat) ∈ [3] ∧
    writeVal 10 [] (Val.vMap 3) 0 [3] = writeJSONString "<cycle>" ∧
    writeVal 10 [] (Val.vSlice 3) 0 [3] = writeJSONString "<cycle>" ∧
    writeVal 10 [] (Val.vPtr (some 3)) 0 [3] = writeJSONString "<cycle>" :=
  ⟨by decide, by simp, writeVal_cycle_guard.1 10 [] 3 0 [3] (by decide) (by simp)⟩

/-- C5 counterexample: with maxDepth two, the field level1 bound to the map
level2 maps to (level3 maps to "deep") renders as
level2 maps to (level3 maps to the depth sentinel) - the sentinel replaces
the value first reached at depth two (the value of level3), not the value of
level2 as the claim asserts, so the claimed field region differs from the
emitted one. -/
theorem maxDepth_region_counterexample :
    writeVal 2 depthHeap (Val.vMap 1) 0 [] =
      "\x7b\"level2\":\x7b\"level3\":\"<max_depth>\"\x7d\x7d" ∧
    ("\x7b\"level2\":\x7b\"level3\":\"<max_depth>\"\x7d\x7d" : String) ≠
      "\x7b\"level2\":\"<max_depth>\"\x7d" := by
  constructor
  · simp [depthHeap, writeVal, renderKeys, sortStrs, sortInsert, lookupV, heapFind]
    decide
  · decide

/-- C5 as amended: whenever the recursion reaches a value at depth at least
maxDepth it emits the quoted depth sentinel and does not descend (first
conjunct); concretely, with maxDepth two the example field renders as
level1 maps to (level2 maps to (level3 maps to the sentinel)): the sentinel
sits one level deeper than the claim's concrete region places it. -/
theorem writeVal_depth_sentinel :
    (∀ (md : Nat) (h : Heap) (v : Val) (d : Nat) (vis : List Nat), d ≥ md →
        writeVal md h v d vis = writeJSONString "<max_depth>") ∧
    formatJson 2 depthHeap
        { level := .info, ts := "t", msg := "m", fields := [("level1", Val.vMap 1)] } =
      "\x7b\"level\":\"INFO\",\"ts\":\"t\",\"msg\":\"m\",\"level1\":\x7b\"level2\":\x7b\"level3\":\"<max_depth>\"\x7d\x7d\x7d" := by
  constructor
  · exact writeVal_depth
  · simp [formatJson, depthHeap, renderFieldsTop, writeVal, renderKeys, sortStrs,
      sortInsert, lookupV, heapFind]
    decide

/-- C5 witness: the sentinel at a concrete depth past the bound. -/
theorem writeVal_depth_sentinel_witness :
    (5 : Nat) ≥ 2 ∧ writeVal 2 [] Val.vNull 5 [] = writeJSONString "<max_depth>" :=
  ⟨by decide, writeVal_depth_sentinel.1 2 [] Val.vNull 5 [] (by decide)⟩

/-- C6 counterexample: the non-blocking Enqueue variant
(src/loggo/core/style.go lines 214 to 227) on a full, open channel returns
with the queue unchanged and the record nowhere in it: the record is silently
dropped, not sent with blocking. -/
theorem enqueueDropping_drops_when_full :
    enqueueDropping fullQ 7 = fullQ ∧ ¬ (7 : Nat) ∈ (enqueueDropping fullQ 7).queue := by
  constructor
  · rfl
  · decide

/-- C6 as amended: Enqueue on a closed route returns without error leaving the
queue unchanged in both variants; on an open route with room both variants
append the record; on an open, full channel the blocking variant blocks (no
completed call, the record neither delivered nor dropped) while the
non-blocking variant cited alongside it returns with the record dropped. -/
theorem enqueue_closed_and_overflow :
    (∀ (s : RouteQ Nat) (r : Nat), s.closed = true →
        enqueueBlocking s r = some s ∧ enqueueDropping s r = s) ∧
    (∀ (s : RouteQ Nat) (r : Nat), s.closed = false → s.queue.length < 1024 →
        enqueueBlocking s r = some { s with queue := s.queue ++ [r] } ∧
        enqueueDropping s r = { s with queue := s.queue ++ [r] }) ∧
    (∀ (s : RouteQ Nat) (r : Nat), s.closed = false → ¬ s.queue.length < 1024 →
        enqueueBlocking s r = none ∧ enqueueDropping s r = s) := by
  refine ⟨?_, ?_, ?_⟩
  · intro s r h1
    constructor <;> simp [enqueueBlocking, enqueueDropping, h1]
  · intro s r h1 h2
    constructor <;> simp [enqueueBlocking, enqueueDropping, h1, h2]
  · intro s r h1 h2
    constructor <;> simp [enqueueBlocking, enqueueDropping, h1, h2]

/-- C6 witness: a closed route discards, an open route with room appends. -/
theorem enqueue_closed_and_overflow_witness :
    enqueueBlocking ({ closed := true, queue := [9] } : RouteQ Nat) 5 =
      some { closed := true, queue := [9] } ∧
    enqueueDropping ({ closed := true, queue := [9] } : RouteQ Nat) 5 =
      { closed := true, queue := [9] } :=
  enqueue_closed_and_overflow.1 { closed := true, queue := [9] } 5 rfl

/-- C7: the pooled reflect.Struct arm (src/loggo/core/formatter/json.go lines
453 to 485) emits the resolved field list twice with two closing braces: a
struct with the single exported field A holding one renders as an object
followed by a stray second copy of the field and another brace, not as one
well-formed object with the field once; the clean variant of
src/unnamed/part_000 emits it once. -/
theorem renderStructPooled_double_emission :
    renderStructPooled 10 [] [("A", none, true, Val.vInt 1)] 0 [] =
      "\x7b\"A\":1\x7d\"A\":1\x7d" ∧
    renderStructClean 10 [] [("A", none, true, Val.vInt 1)] 0 [] = "\x7b\"A\":1\x7d" := by
  constructor
  · simp [renderStructPooled, resolvePooled, renderPooledFiltered, renderPooledAll,
      isZeroVal, sortPairs, sortPairsInsert, writeVal]
    decide
  · simp [renderStructClean, resolveClean, structKeyClean, renderPairs, sortPairs,
      sortPairsInsert, writeVal]
    decide

/-- C8: rotation is a code bug against the claim: rotate never writes
nextRotateTime (first conjunct, for every writer, timestamp and directory),
so after a time-triggered rotation the time predicate still fires at the very
same clock reading: the concrete daily writer whose instant passed rotates
and immediately wants to rotate again. -/
theorem rotate_never_reschedules :
    (∀ (fw : FileWriter) (ts : String) (names : List String),
        (rotate fw ts names).1.nextRotateTime = fw.nextRotateTime) ∧
    shouldRotateByTime fwEx 150 = true ∧
    (rotate fwEx "2025-08-14T15-30-00" ["app.log"]).1.nextRotateTime = 100 ∧
    shouldRotateByTime (rotate fwEx "2025-08-14T15-30-00" ["app.log"]).1 150 = true := by
  refine ⟨fun fw ts names => rfl, by decide, by decide, by decide⟩

lemma strData_append (s t : String) : (s ++ t).data = s.data ++ t.data := by
  cases s
  cases t
  rfl

lemma isPre_length {p s : List Char} (h : List.isPrefixOf p s = true) :
    p.length ≤ s.length := by
  induction p generalizing s with
  | nil => simp
  | cons a t ih =>
    cases s with
    | nil => simp [List.isPrefixOf] at h
    | cons b u =>
      simp only [List.isPrefixOf, Bool.and_eq_true] at h
      exact Nat.succ_le_succ (ih h.2)

lemma strStarts_dot_not_self (path : String) : ¬ strStarts (path ++ ".") path = true := by
  intro h
  unfold strStarts at h
  have hlen := isPre_length h
  rw [strData_append] at hlen
  simp at hlen

lemma filter_take_self (B : List String) (k : Nat) :
    (B.take k).filter (fun n => ¬ n ∈ B.take k) = [] := by
  rw [List.filter_eq_nil_iff]
  intro a ha
  simp [ha]

lemma filter_drop_not_take (B : List String) (hnd : B.Nodup) (k : Nat) :
    (B.drop k).filter (fun n => ¬ n ∈ B.take k) = B.drop k := by
  have hBnd : (B.take k ++ B.drop k).Nodup := by
    rw [List.take_append_drop]
    exact hnd
  have hdisj := (List.nodup_append.mp hBnd).2.2
  rw [List.filter_eq_self]
  intro a ha
  simp only [decide_eq_true_eq]
  intro hc
  exact hdisj hc ha

lemma filter_not_mem_take (B : List String) (hnd : B.Nodup) (k : Nat) :
    B.filter (fun n => ¬ n ∈ B.take k) = B.drop k := by
  have h3 : B.filter (fun n => ¬ n ∈ B.take k) =
      (B.take k ++ B.drop k).filter (fun n => ¬ n ∈ B.take k) := by
    rw [List.take_append_drop]
  rw [h3, List.filter_append, filter_take_self, filter_drop_not_take B hnd k,
    List.nil_append]

/-- C10: cleanup never deletes the active log file: every removed entry's
name begins with the base name and a dot (it strictly extends it), and in
particular the entry named exactly the active file's basename is never
removed, for every directory state and every maxBackups. -/
theorem cleanupBackups_preserves_active (path : String) (mb : Int) (names : List String) :
    ∀ x ∈ (cleanupBackups path mb names).2,
      strStarts (path ++ ".") x = true ∧ x ≠ path := by
  intro x hx
  simp only [cleanupBackups] at hx
  split at hx
  · simp at hx
  · split at hx
    · simp at hx
    · have hx2 : x ∈ sortStrs (names.filter (fun n => strStarts (path ++ ".") n)) :=
        List.mem_of_mem_take hx
      have hx3 : x ∈ names.filter (fun n => strStarts (path ++ ".") n) :=
        (sortStrs_perm _).mem_iff.mp hx2
      have hx4 : strStarts (path ++ ".") x = true := List.of_mem_filter hx3
      refine ⟨hx4, ?_⟩
      intro hceq
      rw [hceq] at hx4
      exact strStarts_dot_not_self path hx4

/-- C10 witness: a concrete cleanup removes only strict extensions and keeps
the active file name. -/
theorem cleanupBackups_preserves_active_witness :
    strStarts ("app.log" ++ ".") "app.log.2025-01-01T00-00-00" = true ∧
    "app.log.2025-01-01T00-00-00" ≠ "app.log" :=
  cleanupBackups_preserves_active "app.log" 1
    ["app.log", "app.log.2025-01-01T00-00-00", "app.log.2025-01-02T00-00-00"]
    "app.log.2025-01-01T00-00-00" (by decide)

/-- C9: after cleanup ran, at most maxBackups entries whose names begin with
the base name and a dot remain (second conjunct, for positive maxBackups on
a duplicate-free listing), the removed entries are the lexicographically
smallest among the archives (third conjunct), and maxBackups zero removes
nothing (first conjunct). -/
theorem cleanupBackups_retention_bound (path : String) (mb : Int) (names : List String)
    (hnd : names.Nodup) :
    (mb = 0 → cleanupBackups path mb names = (names, [])) ∧
    (0 < mb → ((countArchives path (cleanupBackups path mb names).1 : Int) ≤ mb)) ∧
    (∀ x ∈ (cleanupBackups path mb names).2, ∀ y ∈ (cleanupBackups path mb names).1,
        strStarts (path ++ ".") y = true → strLe x y = true) := by
  by_cases h1 : mb ≤ 0
  · have hres : cleanupBackups path mb names = (names, []) := by
      simp [cleanupBackups, h1]
    refine ⟨fun _ => hres, fun hpos => absurd hpos (by omega), ?_⟩
    rw [hres]
    simp
  · by_cases h2 : ((names.filter (fun n => strStarts (path ++ ".") n)).length : Int) ≤ mb
    · have hres : cleanupBackups path mb names = (names, []) := by
        simp only [cleanupBackups, if_neg h1]
        rw [if_pos h2]
      refine ⟨fun _ => hres, fun hpos => ?_, ?_⟩
      · rw [hres]
        exact h2
      · rw [hres]
        simp
    · have hres : cleanupBackups path mb names =
          (names.filter (fun n =>
              ¬ n ∈ (sortStrs (names.filter (fun n => strStarts (path ++ ".") n))).take
                (((names.filter (fun n => strStarts (path ++ ".") n)).length : Int) - mb).toNat),
            (sortStrs (names.filter (fun n => strStarts (path ++ ".") n))).take
              (((names.filter (fun n => strStarts (path ++ ".") n)).length : Int) - mb).toNat) := by
        simp only [cleanupBackups, if_neg h1]
        rw [if_neg h2]
      refine ⟨fun h0 => absurd (by omega : mb ≤ 0) h1, fun hpos => ?_, ?_⟩
      · rw [hres]
        unfold countArchives
        have hcomb : (names.filter (fun n =>
              ¬ n ∈ (sortStrs (names.filter (fun n => strStarts (path ++ ".") n))).take
                (((names.filter (fun n => strStarts (path ++ ".") n)).length : Int) - mb).toNat)).filter
              (fun n => strStarts (path ++ ".") n) =
            (names.filter (fun n => strStarts (path ++ ".") n)).filter (fun n =>
              ¬ n ∈ (sortStrs (names.filter (fun n => strStarts (path ++ ".") n))).take
                (((names.filter (fun n => strStarts (path ++ ".") n)).length : Int) - mb).toNat) := by
          rw [List.filter_filter, List.filter_filter]
          apply List.filter_congr
          intro a ha
          rw [Bool.and_comm]
        rw [hcomb]
        have hperm := List.Perm.filter (fun n =>
            decide (¬ n ∈ (sortStrs (names.filter (fun n => strStarts (path ++ ".") n))).take
              (((names.filter (fun n => strStarts (path ++ ".") n)).length : Int) - mb).toNat))
          (sortStrs_perm (names.filter (fun n => strStarts (path ++ ".") n)))
        rw [← hperm.length_eq]
        rw [filter_not_mem_take _ ((List.Perm.nodup_iff (sortStrs_perm _)).mpr (hnd.filter _)) _]
        have hlenB := (sortStrs_perm (names.filter (fun n => strStarts (path ++ ".") n))).length_eq
        rw [List.length_drop, hlenB]
        omega
      · rw [hres]
        intro x hx y hy hpre
        have hyn : y ∈ names ∧ ¬ y ∈ (sortStrs (names.filter (fun n => strStarts (path ++ ".") n))).take
            (((names.filter (fun n => strStarts (path ++ ".") n)).length : Int) - mb).toNat := by
          have := List.mem_filter.mp hy
          simpa using this
        have hyb : y ∈ sortStrs (names.filter (fun n => strStarts (path ++ ".") n)) :=
          (sortStrs_perm _).mem_iff.mpr (List.mem_filter.mpr ⟨hyn.1, hpre⟩)
        have hsplit : (sortStrs (names.filter (fun n => strStarts (path ++ ".") n))).take
              (((names.filter (fun n => strStarts (path ++ ".") n)).length : Int) - mb).toNat ++
            (sortStrs (names.filter (fun n => strStarts (path ++ ".") n))).drop
              (((names.filter (fun n => strStarts (path ++ ".") n)).length : Int) - mb).toNat =
            sortStrs (names.filter (fun n => strStarts (path ++ ".") n)) :=
          List.take_append_drop _ _
        have hyd : y ∈ (sortStrs (names.filter (fun n => strStarts (path ++ ".") n))).drop
            (((names.filter (fun n => strStarts (path ++ ".") n)).length : Int) - mb).toNat := by
          rw [← hsplit] at hyb
          rcases List.mem_append.mp hyb with hin | hin
          · exact absurd hin hyn.2
          · exact hin
        have hsort : ((sortStrs (names.filter (fun n => strStarts (path ++ ".") n))).take
              (((names.filter (fun n => strStarts (path ++ ".") n)).length : Int) - mb).toNat ++
            (sortStrs (names.filter (fun n => strStarts (path ++ ".") n))).drop
              (((names.filter (fun n => strStarts (path ++ ".") n)).length : Int) - mb).toNat).Pairwise
            (fun a b => strLe a b = true) := by
          rw [hsplit]
          exact sortStrs_sorted (names.filter (fun n => strStarts (path ++ ".") n))
        have hpair := (List.pairwise_append.mp hsort).2.2
        exact hpair x hx y hyd

/-- C9 witness: with maxBackups two and three archives on disk, cleanup
leaves at most two archives and removes only lexicographically smallest
names. -/
theorem cleanupBackups_retention_bound_witness :
    ((2 : Int) = 0 → cleanupBackups "a.log" 2 ["a.log.1", "a.log.2", "a.log.3"] =
      (["a.log.1", "a.log.2", "a.log.3"], [])) ∧
    ((0 : Int) < 2 → ((countArchives "a.log"
      (cleanupBackups "a.log" 2 ["a.log.1", "a.log.2", "a.log.3"]).1 : Int) ≤ 2)) ∧
    (∀ x ∈ (cleanupBackups "a.log" 2 ["a.log.1", "a.log.2", "a.log.3"]).2,
      ∀ y ∈ (cleanupBackups "a.log" 2 ["a.log.1", "a.log.2", "a.log.3"]).1,
        strStarts ("a.log" ++ ".") y = true → strLe x y = true) :=
  cleanupBackups_retention_bound "a.log" 2 ["a.log.1", "a.log.2", "a.log.3"] (by decide)

end Loggo
